import Mathlib

/-!
# Greeder article store: a shallow embedding

This file embeds the core of the Greeder feed reader (`store.go`,
`store_state.go`) in Lean 4 and proves properties of the identity /
deduplication engine.

Modelling conventions:

* Go strings are byte strings; we model them as `List Char` where each
  `Char` stands for one byte (all concrete inputs used in theorems are
  ASCII, where the correspondence is exact).
* `time.Time` values travel through `timeToUnix`/`timeFromUnix` in the
  store, so they are modelled as `Int` epoch seconds with `0` meaning
  "zero/absent" (exactly the collapse the Go code itself performs).
* SQL `NULL`-able text columns (`base_url`) are `Option Str`; scanning a
  `NULL` into a Go `string` is a scan error, which the model reproduces.
* SQLite assigns `INTEGER PRIMARY KEY` ids as `max(id)+1`; the model does
  the same.
-/

set_option maxRecDepth 8192
set_option linter.unusedVariables false

namespace Greeder

/-- Byte strings (one `Char` per Go byte). -/
abbrev Str := List Char

/-- Whitespace as trimmed by `strings.TrimSpace` restricted to single
bytes: `\t`, `\n`, `\v`, `\f`, `\r` and space. -/
def goIsSpace (c : Char) : Bool :=
  decide ((9 ≤ c.toNat ∧ c.toNat ≤ 13) ∨ c.toNat = 32)

/-- `strings.TrimSpace`. -/
def goTrimSpace (s : Str) : Str :=
  ((s.dropWhile goIsSpace).reverse.dropWhile goIsSpace).reverse

/-! ## The `net/url` fragment used by `baseURL`

`baseURL` in `store.go` calls `url.Parse` and `(*URL).String`.  The
definitions below model the parts of `net/url` those two entry points
exercise, following the Go standard library source. -/

/-- Error values.  The store surfaces error *presence*; the payloads are
only used to distinguish intrinsic error classes. -/
inductive Err where
  | parseErr : Err
  | scanErr : Err
  | notFound : Err
  | noDeleted : Err
  | constraint : Err
  | versionErr : Err
  | invalidInput : Err
  | injected : Err
  deriving DecidableEq, Repr

/-- `net/url` escape modes. -/
inductive Encoding where
  | path | pathSegment | host | zone | userPassword | queryComponent | fragment
  deriving DecidableEq, Repr

def isUpperAlpha (c : Char) : Bool := decide ('A' ≤ c ∧ c ≤ 'Z')
def isLowerAlpha (c : Char) : Bool := decide ('a' ≤ c ∧ c ≤ 'z')
def isAlpha (c : Char) : Bool := isUpperAlpha c || isLowerAlpha c
def isDigit (c : Char) : Bool := decide ('0' ≤ c ∧ c ≤ '9')
def isAlphanum (c : Char) : Bool := isAlpha c || isDigit c

/-- `shouldEscape` from `net/url`. -/
def shouldEscape (c : Char) (mode : Encoding) : Bool :=
  if isAlphanum c then false
  else if (mode = .host ∨ mode = .zone) ∧
      c ∈ ['!', '$', '&', '\'', '(', ')', '*', '+', ',', ';', '=', ':',
           '[', ']', '<', '>', '"'] then false
  else if c ∈ ['-', '_', '.', '~'] then false
  else if c ∈ ['$', '&', '+', ',', '/', ':', ';', '=', '?', '@'] then
    match mode with
    | .path => c = '?'
    | .pathSegment => c = '/' || c = ';' || c = ',' || c = '?'
    | .userPassword => c = '@' || c = '/' || c = '?' || c = ':'
    | .queryComponent => true
    | .fragment => false
    | _ => true
  else if mode = .fragment ∧ c ∈ ['!', '(', ')', '*'] then false
  else true

def ishex (c : Char) : Bool :=
  isDigit c || decide ('a' ≤ c ∧ c ≤ 'f') || decide ('A' ≤ c ∧ c ≤ 'F')

def unhex (c : Char) : Nat :=
  if isDigit c then c.toNat - '0'.toNat
  else if decide ('a' ≤ c ∧ c ≤ 'f') then c.toNat - 'a'.toNat + 10
  else if decide ('A' ≤ c ∧ c ≤ 'F') then c.toNat - 'A'.toNat + 10
  else 0

def hexUpper (n : Nat) : Char :=
  List.getD ['0', '1', '2', '3', '4', '5', '6', '7', '8', '9',
             'A', 'B', 'C', 'D', 'E', 'F'] n '0'

/-- `unescape` from `net/url` (validation and decoding in one pass; the Go
original validates first and then decodes, producing the same value). -/
def unescape : Str → Encoding → Except Err Str
  | [], _ => .ok []
  | '%' :: rest, mode =>
    match rest with
    | h1 :: h2 :: rest' =>
      if ishex h1 && ishex h2 then
        let v := unhex h1 * 16 + unhex h2
        if mode = .host ∧ unhex h1 < 8 ∧ ¬(h1 = '2' ∧ h2 = '5') then
          .error .parseErr
        else if mode = .zone ∧ ¬(h1 = '2' ∧ h2 = '5') ∧ v ≠ 32 ∧
            shouldEscape (Char.ofNat v) .host = true then
          .error .parseErr
        else
          match unescape rest' mode with
          | .ok t => .ok (Char.ofNat v :: t)
          | .error e => .error e
      else .error .parseErr
    | _ => .error .parseErr
  | '+' :: rest, mode =>
    (match unescape rest mode with
     | .ok t => .ok ((if mode = .queryComponent then ' ' else '+') :: t)
     | .error e => .error e)
  | c :: rest, mode =>
    if (mode = .host ∨ mode = .zone) ∧ c.toNat < 0x80 ∧
        shouldEscape c mode = true then
      .error .parseErr
    else
      match unescape rest mode with
      | .ok t => .ok (c :: t)
      | .error e => .error e

/-- `escape` from `net/url`, per character. -/
def escapeChar (c : Char) (mode : Encoding) : Str :=
  if shouldEscape c mode then
    if c = ' ' ∧ mode = .queryComponent then ['+']
    else ['%', hexUpper (c.toNat / 16 % 16), hexUpper (c.toNat % 16)]
  else [c]

/-- `escape` from `net/url`. -/
def escape (s : Str) (mode : Encoding) : Str :=
  (s.map (escapeChar · mode)).flatten

/-- `validEncoded` from `net/url`. -/
def validEncoded (s : Str) (mode : Encoding) : Bool :=
  s.all fun c =>
    decide (c ∈ ['!', '$', '&', '\'', '(', ')', '*', '+', ',', ';', '=',
                 ':', '@', '[', ']', '%']) || ! shouldEscape c mode

/-- `stringContainsCTLByte`. -/
def hasCTL (s : Str) : Bool :=
  s.any fun c => decide (c.toNat < 0x20 ∨ c.toNat = 0x7f)

/-- The `net/url` `URL` structure (the fields `String` reads; `opq` is the
opaque part). -/
structure URL where
  scheme : Str
  opq : Str
  user : Option (Str × Option Str)
  host : Str
  path : Str
  rawPath : Str
  omitHost : Bool
  forceQuery : Bool
  rawQuery : Str
  frag : Str
  rawFrag : Str
  deriving DecidableEq, Repr

def URL.empty : URL :=
  ⟨[], [], none, [], [], [], false, false, [], [], []⟩

/-- `(*URL).setPath`. -/
def setPath (u : URL) (p : Str) : Except Err URL :=
  match unescape p .path with
  | .error e => .error e
  | .ok path =>
    .ok { u with path := path,
                 rawPath := if p = escape path .path then [] else p }

/-- `(*URL).setFragment`. -/
def setFragment (u : URL) (f : Str) : Except Err URL :=
  match unescape f .fragment with
  | .error e => .error e
  | .ok fr =>
    .ok { u with frag := fr,
                 rawFrag := if f = escape fr .fragment then [] else f }

/-- Whether a fallible unescape produced exactly `s` (Go's
`err == nil && p == u.Path` check). -/
def unescapesTo (e : Except Err Str) (s : Str) : Bool :=
  match e with
  | .ok t => t = s
  | .error _ => false

/-- `(*URL).EscapedPath`. -/
def escapedPath (u : URL) : Str :=
  if u.rawPath ≠ [] ∧ validEncoded u.rawPath .path = true ∧
      unescapesTo (unescape u.rawPath .path) u.path = true then u.rawPath
  else if u.path = ['*'] then ['*']
  else escape u.path .path

/-- `(*URL).EscapedFragment`. -/
def escapedFragment (u : URL) : Str :=
  if u.rawFrag ≠ [] ∧ validEncoded u.rawFrag .fragment = true ∧
      unescapesTo (unescape u.rawFrag .fragment) u.frag = true then u.rawFrag
  else escape u.frag .fragment

/-- `getScheme` helper: walks the URL accumulating scheme characters. -/
def getSchemeAux (orig : Str) : Str → Str → Except Err (Str × Str)
  | [], _ => .ok ([], orig)
  | c :: rest, acc =>
    if isAlpha c then getSchemeAux orig rest (acc ++ [c])
    else if isDigit c = true ∨ c = '+' ∨ c = '-' ∨ c = '.' then
      if acc = [] then .ok ([], orig) else getSchemeAux orig rest (acc ++ [c])
    else if c = ':' then
      if acc = [] then .error .parseErr else .ok (acc, rest)
    else .ok ([], orig)

/-- `getScheme` from `net/url`. -/
def getScheme (s : Str) : Except Err (Str × Str) :=
  getSchemeAux s s []

def toLowerAscii (s : Str) : Str :=
  s.map fun c => if isUpperAlpha c then Char.ofNat (c.toNat + 32) else c

/-- Cut at the first occurrence of `c`, dropping the separator
(`split(s, c, true)` in `net/url`); `(s, [])` when absent. -/
def cutDrop (c : Char) : Str → Str × Str
  | [] => ([], [])
  | x :: rest =>
    if x = c then ([], rest)
    else
      let (a, b) := cutDrop c rest
      (x :: a, b)

/-- Cut at the first occurrence of `c`, keeping the separator in the tail
(`split(s, c, false)`); `(s, [])` when absent. -/
def cutKeep (c : Char) : Str → Str × Str
  | [] => ([], [])
  | x :: rest =>
    if x = c then ([], x :: rest)
    else
      let (a, b) := cutKeep c rest
      (x :: a, b)

/-- Index of the last occurrence of `c` (`strings.LastIndex`). -/
def lastIdxOf (c : Char) (s : Str) : Option Nat :=
  match s with
  | [] => none
  | x :: rest =>
    match lastIdxOf c rest with
    | some i => some (i + 1)
    | none => if x = c then some 0 else none

/-- Index of the first occurrence of the `%25` byte triple
(`strings.Index(s, "%25")`). -/
def idxOf25 : Str → Option Nat
  | '%' :: '2' :: '5' :: _ => some 0
  | _ :: rest => (idxOf25 rest).map (· + 1)
  | [] => none

/-- `validOptionalPort`. -/
def validOptionalPort (port : Str) : Bool :=
  match port with
  | [] => true
  | ':' :: digits => digits.all isDigit
  | _ => false

/-- `validUserinfo`. -/
def validUserinfo (s : Str) : Bool :=
  s.all fun c =>
    isAlphanum c ||
    decide (c ∈ ['-', '.', '_', ':', '~', '!', '$', '&', '\'', '(', ')',
                 '*', '+', ',', ';', '=', '%', '@'])

/-- `parseHost`. -/
def parseHost (host : Str) : Except Err Str :=
  if host.head? = some '[' then
    match lastIdxOf ']' host with
    | none => .error .parseErr
    | some i =>
      if ¬ validOptionalPort (host.drop (i + 1)) = true then .error .parseErr
      else
        match idxOf25 (host.take i) with
        | some z =>
          (match unescape (host.take z) .host with
           | .error e => .error e
           | .ok h1 =>
             match unescape ((host.take i).drop z) .zone with
             | .error e => .error e
             | .ok h2 =>
               match unescape (host.drop i) .host with
               | .error e => .error e
               | .ok h3 => .ok (h1 ++ h2 ++ h3))
        | none => unescape host .host
  else
    match lastIdxOf ':' host with
    | some i =>
      if ¬ validOptionalPort (host.drop i) = true then .error .parseErr
      else unescape host .host
    | none => unescape host .host

/-- `parseAuthority`. -/
def parseAuthority (authority : Str) :
    Except Err (Option (Str × Option Str) × Str) :=
  match lastIdxOf '@' authority with
  | none =>
    (match parseHost authority with
     | .error e => .error e
     | .ok h => .ok (none, h))
  | some i =>
    match parseHost (authority.drop (i + 1)) with
    | .error e => .error e
    | .ok h =>
      let userinfo := authority.take i
      if ¬ validUserinfo userinfo = true then .error .parseErr
      else if ¬ userinfo.contains ':' = true then
        match unescape userinfo .userPassword with
        | .error e => .error e
        | .ok un => .ok (some (un, none), h)
      else
        let (u0, p0) := cutDrop ':' userinfo
        match unescape u0 .userPassword with
        | .error e => .error e
        | .ok un =>
          match unescape p0 .userPassword with
          | .error e => .error e
          | .ok pw => .ok (some (un, some pw), h)

def startsWith2Slash : Str → Bool
  | '/' :: '/' :: _ => true
  | _ => false

def startsWith3Slash : Str → Bool
  | '/' :: '/' :: '/' :: _ => true
  | _ => false

/-- `parse(rawURL, false)` from `net/url` (the non-request entry point). -/
def parseURL (rawURL : Str) : Except Err URL :=
  if hasCTL rawURL then .error .parseErr
  else if rawURL = ['*'] then .ok { URL.empty with path := ['*'] }
  else
    match getScheme rawURL with
    | .error e => .error e
    | .ok (scheme0, rest0) =>
      let scheme := toLowerAscii scheme0
      let (rest, forceQuery, rawQuery) :=
        if rest0.getLast? = some '?' ∧ rest0.dropLast.contains '?' = false then
          (rest0.dropLast, true, ([] : Str))
        else
          let (a, b) := cutDrop '?' rest0
          (a, false, b)
      if rest.head? ≠ some '/' ∧ scheme ≠ [] then
        .ok { URL.empty with scheme := scheme, opq := rest,
                             forceQuery := forceQuery, rawQuery := rawQuery }
      else if rest.head? ≠ some '/' ∧ ((cutDrop '/' rest).1).contains ':' = true then
        .error .parseErr
      else
        let u0 : URL :=
          { URL.empty with scheme := scheme, forceQuery := forceQuery,
                           rawQuery := rawQuery }
        if (scheme ≠ [] ∨ startsWith3Slash rest = false) ∧
            startsWith2Slash rest = true then
          let (authority, rest2) := cutKeep '/' (rest.drop 2)
          match parseAuthority authority with
          | .error e => .error e
          | .ok (user, host) => setPath { u0 with user := user, host := host } rest2
        else if scheme ≠ [] ∧ rest.head? = some '/' then
          setPath { u0 with omitHost := true } rest
        else
          setPath u0 rest

/-- `url.Parse`: cut the fragment first, then parse, then set the
fragment. -/
def goURLParse (raw : Str) : Except Err URL :=
  let (body, fragPart) := cutDrop '#' raw
  match parseURL body with
  | .error e => .error e
  | .ok u => if fragPart = [] then .ok u else setFragment u fragPart

/-- `(*Userinfo).String`. -/
def userinfoString : Str × Option Str → Str
  | (un, none) => escape un .userPassword
  | (un, some pw) => escape un .userPassword ++ ':' :: escape pw .userPassword

/-- `(*URL).String`. -/
def urlString (u : URL) : Str :=
  let bufA : Str := if u.scheme ≠ [] then u.scheme ++ [':'] else []
  let tail : Str :=
    (if u.forceQuery = true ∨ u.rawQuery ≠ [] then '?' :: u.rawQuery else []) ++
    (if u.frag ≠ [] then '#' :: escapedFragment u else [])
  if u.opq ≠ [] then bufA ++ u.opq ++ tail
  else
    let bufB : Str :=
      if u.scheme ≠ [] ∨ u.host ≠ [] ∨ u.user.isSome = true then
        if u.omitHost = true ∧ u.host = [] ∧ u.user.isNone = true then bufA
        else
          let b1 := if u.host ≠ [] ∨ u.path ≠ [] ∨ u.user.isSome = true then
              bufA ++ ['/', '/'] else bufA
          let b2 := match u.user with
            | some ui => b1 ++ userinfoString ui ++ ['@']
            | none => b1
          if u.host ≠ [] then b2 ++ escape u.host .host else b2
      else bufA
    let p := escapedPath u
    let bufC := if p ≠ [] ∧ p.head? ≠ some '/' ∧ u.host ≠ [] then
        bufB ++ ['/'] else bufB
    let bufD := if bufC = [] ∧ ((cutDrop '/' p).1).contains ':' = true then
        ['.', '/'] else bufC
    bufD ++ p ++ tail

/-- `baseURL` from `store.go`: trim, parse, strip query and fragment,
reserialize; fail open on parse errors. -/
def baseURL (raw : Str) : Str :=
  let t := goTrimSpace raw
  if t = [] then []
  else
    match goURLParse t with
    | .error _ => t
    | .ok u => urlString { u with rawQuery := [], frag := [] }

/-! ## The relational store

Tables are lists of rows; SQLite's `ORDER BY id` is modelled by an
insertion sort on the key, `rowid` assignment by `max+1`, foreign keys
with `ON DELETE CASCADE` by explicit filtering, and `UNIQUE` constraints
by membership checks that raise `Err.constraint`. -/

structure Feed where
  id : Nat
  title : Str
  url : Str
  siteUrl : Str
  description : Str
  lastFetched : Int
  createdAt : Int
  updatedAt : Int
  deriving DecidableEq, Repr

structure Article where
  id : Nat
  feedId : Nat
  guid : Str
  title : Str
  url : Str
  baseUrl : Option Str
  author : Str
  content : Str
  contentText : Str
  publishedAt : Int
  fetchedAt : Int
  isRead : Bool
  isStarred : Bool
  feedTitle : Str
  deriving DecidableEq, Repr

structure SourceRow where
  articleId : Nat
  feedId : Nat
  publishedAt : Int
  deriving DecidableEq, Repr

structure SummaryRow where
  id : Nat
  articleId : Nat
  content : Str
  model : Str
  generatedAt : Int
  deriving DecidableEq, Repr

structure SavedRow where
  articleId : Nat
  raindropId : Int
  tags : List Str
  savedAt : Int
  deriving DecidableEq, Repr

structure DeletedRow where
  id : Nat
  feedId : Nat
  guid : Str
  title : Str
  url : Str
  baseUrl : Option Str
  author : Str
  content : Str
  contentText : Str
  publishedAt : Int
  fetchedAt : Int
  isRead : Bool
  isStarred : Bool
  feedTitle : Str
  deletedAt : Int
  deriving DecidableEq, Repr

structure DB where
  feeds : List Feed
  articles : List Article
  sources : List SourceRow
  summaries : List SummaryRow
  saved : List SavedRow
  deleted : List DeletedRow
  deriving DecidableEq, Repr

def DB.empty : DB := ⟨[], [], [], [], [], []⟩

/-- Next `INTEGER PRIMARY KEY` rowid: `max(id)+1` (`1` on an empty
table). -/
def nextId (ids : List Nat) : Nat := ids.foldr max 0 + 1

def DB.nextArticleId (db : DB) : Nat := nextId (db.articles.map (·.id))
def DB.nextDeletedId (db : DB) : Nat := nextId (db.deleted.map (·.id))

/-- Insertion sort by a `Nat` key (`ORDER BY`). -/
def sortInsert {α : Type} (key : α → Nat) (a : α) : List α → List α
  | [] => [a]
  | b :: l => if key a ≤ key b then a :: b :: l else b :: sortInsert key a l

def sortByKey {α : Type} (key : α → Nat) : List α → List α
  | [] => []
  | a :: l => sortInsert key a (sortByKey key l)

/-- `findArticleIDByBaseURL` from `store.go`: blank lookups are skipped,
`NULL` stored identities never match, `0` means "no match". -/
def findArticleIDByBaseURL (db : DB) (base : Str) : Nat :=
  if goTrimSpace base = [] then 0
  else
    match (sortByKey (·.id) db.articles).find? (fun a => a.baseUrl = some base) with
    | some a => a.id
    | none => 0

/-- `ensureArticleSource` from `store.go` (plus the SQLite foreign-key
checks the `INSERT` is subject to). -/
def ensureArticleSource (db : DB) (articleId feedId : Nat) (publishedAt : Int) :
    Except Err DB :=
  match db.sources.find? (fun s => s.articleId = articleId ∧ s.feedId = feedId) with
  | some _ =>
    if publishedAt = 0 then .ok db
    else
      .ok { db with sources := db.sources.map fun s =>
              if s.articleId = articleId ∧ s.feedId = feedId ∧ s.publishedAt = 0
              then { s with publishedAt := publishedAt } else s }
  | none =>
    if db.articles.any (·.id = articleId) ∧ db.feeds.any (·.id = feedId) then
      .ok { db with sources := db.sources ++ [⟨articleId, feedId, publishedAt⟩] }
    else .error .constraint

/-- `INSERT INTO articles` with an auto id (`UNIQUE(feed_id, guid)`
enforced). -/
def insertArticleRow (db : DB) (a : Article) : Except Err (Nat × DB) :=
  if db.articles.any (fun b => b.feedId = a.feedId ∧ b.guid = a.guid) then
    .error .constraint
  else
    let id := db.nextArticleId
    .ok (id, { db with articles := db.articles ++ [{ a with id := id }] })

/-- The per-article body of the `InsertArticles` loop. -/
def insertArticlesLoop (feed : Feed) (now : Int) :
    List Article → List Str → List Article → DB →
    Except Err (List Article × DB)
  | [], _, added, db => .ok (added, db)
  | a0 :: rest, seen, added, db =>
    let guid := if a0.guid = [] then a0.url else a0.guid
    let base0 := baseURL a0.url
    let base := if base0 = [] then a0.url else base0
    if guid ∈ seen then insertArticlesLoop feed now rest seen added db
    else
      let a : Article :=
        { a0 with guid := guid, baseUrl := some base, feedId := feed.id,
                  feedTitle := feed.title,
                  fetchedAt := if a0.fetchedAt = 0 then now else a0.fetchedAt }
      let existing := findArticleIDByBaseURL db base
      if existing ≠ 0 then
        match ensureArticleSource db existing feed.id a.publishedAt with
        | .error e => .error e
        | .ok db' => insertArticlesLoop feed now rest (guid :: seen) added db'
      else
        match insertArticleRow db a with
        | .error e => .error e
        | .ok (id, db1) =>
          match ensureArticleSource db1 id feed.id a.publishedAt with
          | .error e => .error e
          | .ok db2 =>
            insertArticlesLoop feed now rest (guid :: seen)
              (added ++ [{ a with id := id }]) db2

/-- `InsertArticles` from `store.go` (one transaction; `now` stands for
`time.Now()`). -/
def insertArticles (db : DB) (feed : Feed) (incoming : List Article) (now : Int) :
    Except Err (List Article × DB) :=
  let seen :=
    (db.articles.filter (·.feedId = feed.id)).map (·.guid) ++
    (db.deleted.filter (·.feedId = feed.id)).map (·.guid)
  match insertArticlesLoop feed now incoming seen [] db with
  | .error e => .error e
  | .ok (added, db') =>
    .ok (added, { db' with feeds := db'.feeds.map fun f =>
          if f.id = feed.id then { f with lastFetched := now, updatedAt := now }
          else f })

/-- `DELETE FROM articles WHERE id = ?` plus the `ON DELETE CASCADE`
effects on `article_sources`, `summaries` and `saved`. -/
def deleteArticleCascade (db : DB) (id : Nat) : DB :=
  { db with articles := db.articles.filter (·.id ≠ id),
            sources := db.sources.filter (·.articleId ≠ id),
            summaries := db.summaries.filter (·.articleId ≠ id),
            saved := db.saved.filter (·.articleId ≠ id) }

/-- The row image `MergeDuplicateArticles` scans per article. -/
structure MergeRow where
  id : Nat
  feedId : Nat
  url : Str
  base : Option Str
  publishedAt : Int
  deriving DecidableEq, Repr

def Article.toMergeRow (a : Article) : MergeRow :=
  ⟨a.id, a.feedId, a.url, a.baseUrl, a.publishedAt⟩

/-- Association-list lookup standing for the Go `map[string]int`. -/
def lookupBase (m : List (Str × Nat)) (k : Str) : Option Nat :=
  (m.find? (·.1 = k)).map (·.2)

/-- The identity `MergeDuplicateArticles` recomputes per row: the
normalized URL, else the trimmed stored identity, else the raw URL. -/
def mergeNormalized (r : MergeRow) (b : Str) : Str :=
  let n0 := baseURL r.url
  let n1 := if n0 = [] then goTrimSpace b else n0
  if n1 = [] then r.url else n1

/-- One iteration of the `MergeDuplicateArticles` scan loop.  Scanning a
`NULL` `base_url` into a Go `string` is a scan error. -/
def mergeStep (db : DB) (m : List (Str × Nat)) (r : MergeRow) :
    Except Err (DB × List (Str × Nat)) :=
  match r.base with
  | none => .error .scanErr
  | some b =>
    let normalized := mergeNormalized r b
    let db1 :=
      if normalized ≠ b then
        { db with articles := db.articles.map fun a =>
            if a.id = r.id then { a with baseUrl := some normalized } else a }
      else db
    match lookupBase m normalized with
    | some rep =>
      (match ensureArticleSource db1 rep r.feedId r.publishedAt with
       | .error e => .error e
       | .ok db2 =>
         let db3 :=
           if db2.summaries.any (·.articleId = rep) then
             { db2 with summaries := db2.summaries.filter (·.articleId ≠ r.id) }
           else
             { db2 with summaries := db2.summaries.map fun s =>
                 if s.articleId = r.id then { s with articleId := rep } else s }
         let db4 :=
           if db3.saved.any (·.articleId = rep) then
             { db3 with saved := db3.saved.filter (·.articleId ≠ r.id) }
           else
             { db3 with saved := db3.saved.map fun s =>
                 if s.articleId = r.id then { s with articleId := rep } else s }
         .ok (deleteArticleCascade db4 r.id, m))
    | none =>
      match ensureArticleSource db1 r.id r.feedId r.publishedAt with
      | .error e => .error e
      | .ok db2 => .ok (db2, m ++ [(normalized, r.id)])

def mergeLoop : List MergeRow → DB → List (Str × Nat) → Except Err DB
  | [], db, _ => .ok db
  | r :: rs, db, m =>
    match mergeStep db m r with
    | .error e => .error e
    | .ok (db', m') => mergeLoop rs db' m'

/-- `MergeDuplicateArticles` from `store.go` (one transaction; rows are
scanned in id order; row updates never touch rows not yet scanned, so the
snapshot of the initial table is faithful). -/
def mergeDuplicateArticles (db : DB) : Except Err DB :=
  mergeLoop ((sortByKey (·.id) db.articles).map Article.toMergeRow) db []

/-- `DeleteArticle` from `store.go`: fetch, then one transaction deleting
the row (with cascades) and materialising the tombstone.  Scanning a
`NULL` `base_url` and a missing row surface the same "article not found"
error. -/
def deleteArticle (db : DB) (id : Nat) (now : Int) : Except Err (Article × DB) :=
  match (sortByKey (·.id) db.articles).find? (·.id = id) with
  | none => .error .notFound
  | some a =>
    match a.baseUrl with
    | none => .error .notFound
    | some b =>
      let db1 := deleteArticleCascade db id
      let drow : DeletedRow :=
        { id := db1.nextDeletedId, feedId := a.feedId, guid := a.guid,
          title := a.title, url := a.url, baseUrl := some b,
          author := a.author, content := a.content,
          contentText := a.contentText, publishedAt := a.publishedAt,
          fetchedAt := a.fetchedAt, isRead := a.isRead,
          isStarred := a.isStarred, feedTitle := a.feedTitle,
          deletedAt := now }
      .ok (a, { db1 with deleted := db1.deleted ++ [drow] })

/-- `UndeleteLast` from `store.go` (success path; the statement-level
failure behaviour is modelled separately below).  Re-inserts the most
recent tombstone as a brand-new article, recomputing a blank stored
identity, then removes the tombstone. -/
def undeleteLast (db : DB) : Except Err (Article × DB) :=
  match (sortByKey (·.id) db.deleted).getLast? with
  | none => .error .noDeleted
  | some d =>
    match d.baseUrl with
    | none => .error .noDeleted
    | some b0 =>
      let b := if b0 = [] then baseURL d.url else b0
      let a : Article :=
        { id := 0, feedId := d.feedId, guid := d.guid, title := d.title,
          url := d.url, baseUrl := some b, author := d.author,
          content := d.content, contentText := d.contentText,
          publishedAt := d.publishedAt, fetchedAt := d.fetchedAt,
          isRead := d.isRead, isStarred := d.isStarred,
          feedTitle := d.feedTitle }
      match insertArticleRow db a with
      | .error e => .error e
      | .ok (id, db1) =>
        .ok ({ a with id := id },
             { db1 with deleted := db1.deleted.filter (·.id ≠ d.id) })

/-! ## State export / import (`store_state.go`) -/

/-- `Articles()` scans `base_url` into a Go `string`; a `NULL` aborts the
scan and the rows read so far are returned. -/
def scanArticlesPartial : List Article → List Article
  | [] => []
  | a :: rest =>
    match a.baseUrl with
    | some _ => a :: scanArticlesPartial rest
    | none => []

def DB.readArticles (db : DB) : List Article :=
  scanArticlesPartial (sortByKey (·.id) db.articles)

/-- `Deleted()` likewise returns a partial list when it hits a `NULL`
`base_url`. -/
def scanDeletedPartial : List DeletedRow → List DeletedRow
  | [] => []
  | d :: rest =>
    match d.baseUrl with
    | some _ => d :: scanDeletedPartial rest
    | none => []

def DB.readDeleted (db : DB) : List DeletedRow :=
  scanDeletedPartial (sortByKey (·.id) db.deleted)

/-- The serialized snapshot (`ExportState` in `store_state.go`): feeds,
articles, summaries, saved and deleted rows — `article_sources` is not
serialized. -/
structure StateSnapshot where
  version : Int
  feeds : List Feed
  articles : List Article
  summaries : List SummaryRow
  saved : List SavedRow
  deleted : List DeletedRow
  deriving DecidableEq, Repr

/-- `(*Store).ExportState` (the snapshot value it serializes). -/
def exportState (db : DB) : StateSnapshot :=
  { version := 1,
    feeds := sortByKey (·.id) db.feeds,
    articles := db.readArticles,
    summaries := sortByKey (·.id) db.summaries,
    saved := sortByKey (·.articleId) db.saved,
    deleted := db.readDeleted }

def importFeeds : List Feed → List Feed → Except Err (List Feed)
  | [], acc => .ok acc
  | f :: rest, acc =>
    if acc.any (fun g => g.id = f.id ∨ g.url = f.url) then .error .constraint
    else importFeeds rest (acc ++ [f])

/-- Article inserts in `ImportState` name every column except `base_url`,
so the stored identity of every imported article is `NULL`. -/
def importArticles : List Article → List Article → Except Err (List Article)
  | [], acc => .ok acc
  | a :: rest, acc =>
    if acc.any (fun b => b.id = a.id ∨ (b.feedId = a.feedId ∧ b.guid = a.guid))
    then .error .constraint
    else importArticles rest (acc ++ [{ a with baseUrl := none }])

def importSummaries (arts : List Article) :
    List SummaryRow → List SummaryRow → Except Err (List SummaryRow)
  | [], acc => .ok acc
  | s :: rest, acc =>
    if acc.any (fun t => t.id = s.id ∨ t.articleId = s.articleId) ∨
        ¬ arts.any (·.id = s.articleId) then .error .constraint
    else importSummaries arts rest (acc ++ [s])

def importSaved (arts : List Article) :
    List SavedRow → List SavedRow → Except Err (List SavedRow)
  | [], acc => .ok acc
  | s :: rest, acc =>
    if acc.any (fun t => t.articleId = s.articleId) ∨
        ¬ arts.any (·.id = s.articleId) then .error .constraint
    else importSaved arts rest (acc ++ [s])

/-- Deleted inserts in `ImportState` also omit `base_url`. -/
def importDeleted : List DeletedRow → List DeletedRow → List DeletedRow
  | [], acc => acc
  | d :: rest, acc =>
    importDeleted rest
      (acc ++ [{ d with id := nextId (acc.map (·.id)), baseUrl := none }])

/-- `(*Store).ImportState`: version gate, then one transaction that clears
every table (deleting all articles cascades away every `article_sources`
row) and re-inserts the snapshot. -/
def importState (db : DB) (st : StateSnapshot) : Except Err DB :=
  if st.version ≠ 1 then .error .versionErr
  else
    match importFeeds st.feeds [] with
    | .error e => .error e
    | .ok feeds =>
      match importArticles st.articles [] with
      | .error e => .error e
      | .ok articles =>
        match importSummaries articles st.summaries [] with
        | .error e => .error e
        | .ok summaries =>
          match importSaved articles st.saved [] with
          | .error e => .error e
          | .ok saved =>
            .ok { feeds := feeds, articles := articles, sources := [],
                  summaries := summaries, saved := saved,
                  deleted := importDeleted st.deleted [] }

/-! ## Restore by window -/

/-- Modelled from the spec: the implementation of
`(*Store).UndeleteByPublishedDays` is absent from the sources (only its
tests and callers are present), so this definition follows section 4.4 of
the specification: reject `days <= 0` before any I/O; count tombstones
whose original publish time falls within `now - days` (failing when there
are none, as the tests require); then, in one transaction and in id
order, recompute each matching tombstone's identity from its URL (falling
back to the stored identity, then the raw URL), fold into a live article
with that identity using the OR-merge flag policy (`read` becomes
`existing.read AND restoring.read`, `starred` becomes
`existing.starred OR restoring.starred`) or insert a new article carrying
the tombstone's flags, ensure the article-source pairing, and delete the
tombstone.  Returns the number of tombstones processed. -/
def tombstoneIdentity (d : DeletedRow) : Str :=
  let i0 := baseURL d.url
  let i1 := if i0 = [] then (match d.baseUrl with | some b => b | none => []) else i0
  if i1 = [] then d.url else i1

/-- Modelled from the spec (section 4.4, continued): restore a single
matching tombstone, folding into a live article with the same identity
under the OR-merge flag policy, or inserting a new article. -/
def undeleteOne (db : DB) (d : DeletedRow) : Except Err DB :=
  let identity := tombstoneIdentity d
  let existing := findArticleIDByBaseURL db identity
  if existing ≠ 0 then
    match ensureArticleSource db existing d.feedId d.publishedAt with
    | .error e => .error e
    | .ok db1 =>
      let db2 :=
        { db1 with articles := db1.articles.map fun (a : Article) =>
            if a.id = existing then
              { a with isRead := a.isRead && d.isRead,
                       isStarred := a.isStarred || d.isStarred }
            else a }
      .ok { db2 with deleted := db2.deleted.filter (·.id ≠ d.id) }
  else
    let a : Article :=
      { id := 0, feedId := d.feedId, guid := d.guid, title := d.title,
        url := d.url, baseUrl := some identity, author := d.author,
        content := d.content, contentText := d.contentText,
        publishedAt := d.publishedAt, fetchedAt := d.fetchedAt,
        isRead := d.isRead, isStarred := d.isStarred,
        feedTitle := d.feedTitle }
    match insertArticleRow db a with
    | .error e => .error e
    | .ok (id, db1) =>
      match ensureArticleSource db1 id d.feedId d.publishedAt with
      | .error e => .error e
      | .ok db2 => .ok { db2 with deleted := db2.deleted.filter (·.id ≠ d.id) }

def undeleteLoop : List DeletedRow → DB → Except Err DB
  | [], db => .ok db
  | d :: rest, db =>
    match undeleteOne db d with
    | .error e => .error e
    | .ok db' => undeleteLoop rest db'

/-- Modelled from the spec (see `undeleteOne`): restore every tombstone
whose publish time is within the window. -/
def undeleteByPublishedDays (db : DB) (now days : Int) : Except Err (Nat × DB) :=
  if days ≤ 0 then .error .invalidInput
  else
    let cutoff := now - days * 86400
    let matching := (sortByKey (·.id) db.deleted).filter
      (fun d => d.publishedAt ≠ 0 ∧ cutoff ≤ d.publishedAt)
    if matching.length = 0 then .error .noDeleted
    else
      match undeleteLoop matching db with
      | .error e => .error e
      | .ok db' => .ok (matching.length, db')

/-! ## Helpers for stating properties -/

instance {ε α : Type} [DecidableEq ε] [DecidableEq α] :
    DecidableEq (Except ε α) := fun x y =>
  match x, y with
  | .ok a, .ok b =>
    if h : a = b then .isTrue (h ▸ rfl)
    else .isFalse (fun hh => h (Except.ok.inj hh))
  | .error a, .error b =>
    if h : a = b then .isTrue (h ▸ rfl)
    else .isFalse (fun hh => h (Except.error.inj hh))
  | .ok _, .error _ => .isFalse (fun hh => Except.noConfusion hh)
  | .error _, .ok _ => .isFalse (fun hh => Except.noConfusion hh)

def exceptOk : Except Err DB → Option DB
  | .ok db => some db
  | .error _ => none

def isScanErr : Except Err DB → Bool
  | .error .scanErr => true
  | _ => false

def parsesOk (s : Str) : Bool :=
  match goURLParse s with
  | .ok _ => true
  | .error _ => false

/-- The four table sizes named by the reconciliation-idempotence
property. -/
def countsOf (db : DB) : Nat × Nat × Nat × Nat :=
  (db.articles.length, db.sources.length, db.summaries.length, db.saved.length)

/-- An article with its id erased (for "equal in every field except
id"). -/
def Article.sansId (a : Article) : Article := { a with id := 0 }

/-- The stored `article_sources` row for a pairing. -/
def sourceFor (db : DB) (articleId feedId : Nat) : Option SourceRow :=
  db.sources.find? (fun s => s.articleId = articleId ∧ s.feedId = feedId)

/-! ## Concrete fixtures -/

def exFeed : Feed :=
  { id := 1, title := "Feed".toList, url := "https://example.com/rss".toList,
    siteUrl := [], description := [], lastFetched := 0, createdAt := 0,
    updatedAt := 0 }

def exDB0 : DB := { DB.empty with feeds := [exFeed] }

/-- An incoming article as the feed fetcher would hand it to
`InsertArticles`. -/
def exArt (guid url : String) (pub : Int) : Article :=
  { id := 0, feedId := 0, guid := guid.toList, title := [], url := url.toList,
    baseUrl := none, author := [], content := [], contentText := [],
    publishedAt := pub, fetchedAt := 1, isRead := false, isStarred := false,
    feedTitle := [] }

/-- A stored article row. -/
def exRow (id feedId : Nat) (guid url base : String) (pub : Int) : Article :=
  { id := id, feedId := feedId, guid := guid.toList, title := [],
    url := url.toList, baseUrl := some base.toList, author := [], content := [],
    contentText := [], publishedAt := pub, fetchedAt := 1, isRead := false,
    isStarred := false, feedTitle := [] }

/-- Two successive ingests of articles with an empty URL (hence empty
derived identity) and distinct GUIDs. -/
def c1ingestTwice : Option DB :=
  match insertArticles exDB0 exFeed [exArt "g1" "" 0] 1000 with
  | .error _ => none
  | .ok (_, db) =>
    match insertArticles db exFeed [exArt "g2" "" 0] 2000 with
    | .error _ => none
    | .ok (_, db') => some db'

/-- Two live articles whose stored identities are empty and whose URLs
differ only by surrounding whitespace once the query is stripped. -/
def c2db : DB :=
  { DB.empty with
    feeds := [exFeed],
    articles := [exRow 1 1 "g1" " ?q" "" 0, exRow 2 1 "g2" "?q" "" 0] }

/-- One ingest of a two-article batch with distinct GUIDs and the same
derived identity, into a store with no live articles. -/
def c3run : Except Err (List Article × DB) :=
  insertArticles exDB0 exFeed
    [exArt "g1" "http://x/p?1" 5, exArt "g2" "http://x/p?2" 6] 1000

/-- Two duplicate articles, neither of which has a summary or bookmark. -/
def c4db : DB :=
  { DB.empty with
    feeds := [exFeed],
    articles := [exRow 1 1 "g1" "https://e.com/p?x=1" "https://e.com/p" 100,
                 exRow 2 1 "g2" "https://e.com/p?x=2" "https://e.com/p" 200] }

/-- The duplicate pair with a summary and a bookmark on B (id 2) only. -/
def c4dbS : DB :=
  { c4db with summaries := [⟨1, 2, "summary".toList, [], 0⟩],
              saved := [⟨2, 1, [], 0⟩] }

/-- The scan row for B, as the reconcile loop sees it. -/
def c4row : MergeRow :=
  Article.toMergeRow (exRow 2 1 "g2" "https://e.com/p?x=2" "https://e.com/p" 200)

/-- The in-memory identity map after A (id 1) was recorded. -/
def c4m : List (Str × Nat) := [("https://e.com/p".toList, 1)]

/-- The state after the merge step that folds B into A. -/
def c4after : DB :=
  match mergeStep c4dbS c4m c4row with
  | .ok (db, _) => db
  | .error _ => DB.empty

/-- One live article already sourced by feed 1 with timestamp 100. -/
def c8db : DB :=
  { DB.empty with
    feeds := [exFeed],
    articles := [exRow 1 1 "g" "u" "u" 0] }

/-- A store with one live article, its identity stored, and one source
association. -/
def c10db : DB :=
  { DB.empty with
    feeds := [exFeed],
    articles := [exRow 1 1 "g1" "https://e.com/one" "https://e.com/one" 10],
    sources := [⟨1, 1, 10⟩] }

/-! ## Statement-level failure model

For the atomicity claim, the mutating operations are re-expressed with
one failure point per SQL statement (plus `LastInsertId`), driven by an
oracle mapping the statement index to "fails here".  Transactional
operations roll back to the caller-visible state on any error;
`UndeleteLast` issues autocommitted statements outside any transaction.
Each operation returns its result together with the database state
visible after the call. -/

abbrev Oracle := Nat → Bool

def noFail : Oracle := fun _ => false

def failAt (i : Nat) : Oracle := fun k => k = i

def stepCheck (orc : Oracle) (k : Nat) : Except Err Unit :=
  if orc k then .error .injected else .ok ()

/-- `ensureArticleSource` with failure points: the existence query, then
the `UPDATE` (issued only for a non-zero timestamp) or the `INSERT`. -/
def ensureArticleSourceI (orc : Oracle) (db : DB) (articleId feedId : Nat)
    (pub : Int) (k : Nat) : Except Err (DB × Nat) :=
  match stepCheck orc k with
  | .error e => .error e
  | .ok _ =>
    match db.sources.find? (fun s => s.articleId = articleId ∧ s.feedId = feedId) with
    | some _ =>
      if pub = 0 then .ok (db, k + 1)
      else
        match stepCheck orc (k + 1) with
        | .error e => .error e
        | .ok _ =>
          .ok ({ db with sources := db.sources.map fun s =>
                  if s.articleId = articleId ∧ s.feedId = feedId ∧ s.publishedAt = 0
                  then { s with publishedAt := pub } else s }, k + 2)
    | none =>
      match stepCheck orc (k + 1) with
      | .error e => .error e
      | .ok _ =>
        if db.articles.any (·.id = articleId) ∧ db.feeds.any (·.id = feedId) then
          .ok ({ db with sources := db.sources ++ [⟨articleId, feedId, pub⟩] }, k + 2)
        else .error .constraint

/-- The `InsertArticles` loop with failure points (the identity lookup,
the row insert, `LastInsertId`, and the source statements). -/
def insertArticlesLoopI (orc : Oracle) (feed : Feed) (now : Int) :
    List Article → List Str → List Article → DB → Nat →
    Except Err (List Article × DB × Nat)
  | [], _, added, db, k => .ok (added, db, k)
  | a0 :: rest, seen, added, db, k =>
    let guid := if a0.guid = [] then a0.url else a0.guid
    let base0 := baseURL a0.url
    let base := if base0 = [] then a0.url else base0
    if guid ∈ seen then insertArticlesLoopI orc feed now rest seen added db k
    else
      let a : Article :=
        { a0 with guid := guid, baseUrl := some base, feedId := feed.id,
                  feedTitle := feed.title,
                  fetchedAt := if a0.fetchedAt = 0 then now else a0.fetchedAt }
      match stepCheck orc k with
      | .error e => .error e
      | .ok _ =>
        let existing := findArticleIDByBaseURL db base
        if existing ≠ 0 then
          match ensureArticleSourceI orc db existing feed.id a.publishedAt (k + 1) with
          | .error e => .error e
          | .ok (db', k') =>
            insertArticlesLoopI orc feed now rest (guid :: seen) added db' k'
        else
          match stepCheck orc (k + 1) with
          | .error e => .error e
          | .ok _ =>
            match insertArticleRow db a with
            | .error e => .error e
            | .ok (id, db1) =>
              match stepCheck orc (k + 2) with
              | .error e => .error e
              | .ok _ =>
                match ensureArticleSourceI orc db1 id feed.id a.publishedAt (k + 3) with
                | .error e => .error e
                | .ok (db2, k') =>
                  insertArticlesLoopI orc feed now rest (guid :: seen)
                    (added ++ [{ a with id := id }]) db2 k'

/-- The transaction body of `InsertArticles` with failure points: begin,
the two guid scans, the loop, the feed update, commit. -/
def insertArticlesInner (orc : Oracle) (db : DB) (feed : Feed)
    (incoming : List Article) (now : Int) : Except Err (List Article × DB) :=
  let seen :=
    (db.articles.filter (·.feedId = feed.id)).map (·.guid) ++
    (db.deleted.filter (·.feedId = feed.id)).map (·.guid)
  match stepCheck orc 0 with
  | .error e => .error e
  | .ok _ =>
    match stepCheck orc 1 with
    | .error e => .error e
    | .ok _ =>
      match stepCheck orc 2 with
      | .error e => .error e
      | .ok _ =>
        match insertArticlesLoopI orc feed now incoming seen [] db 3 with
        | .error e => .error e
        | .ok (added, db', k) =>
          match stepCheck orc k with
          | .error e => .error e
          | .ok _ =>
            match stepCheck orc (k + 1) with
            | .error e => .error e
            | .ok _ =>
              .ok (added, { db' with feeds := db'.feeds.map fun f =>
                  if f.id = feed.id then
                    { f with lastFetched := now, updatedAt := now }
                  else f })

/-- `InsertArticles` with failure points: one transaction; any failure
rolls back, leaving the original state visible. -/
def insertArticlesI (orc : Oracle) (db : DB) (feed : Feed)
    (incoming : List Article) (now : Int) : Except Err (List Article) × DB :=
  match insertArticlesInner orc db feed incoming now with
  | .error e => (.error e, db)
  | .ok (added, dbF) => (.ok added, dbF)

/-- One `MergeDuplicateArticles` iteration with failure points. -/
def mergeStepI (orc : Oracle) (db : DB) (m : List (Str × Nat)) (r : MergeRow)
    (k : Nat) : Except Err (DB × List (Str × Nat) × Nat) :=
  match r.base with
  | none => .error .scanErr
  | some b =>
    let normalized := mergeNormalized r b
    let upd : Except Err (DB × Nat) :=
      if normalized ≠ b then
        match stepCheck orc k with
        | .error e => .error e
        | .ok _ =>
          .ok ({ db with articles := db.articles.map fun a =>
                  if a.id = r.id then { a with baseUrl := some normalized }
                  else a }, k + 1)
      else .ok (db, k)
    match upd with
    | .error e => .error e
    | .ok (db1, k1) =>
      match lookupBase m normalized with
      | some rep =>
        (match ensureArticleSourceI orc db1 rep r.feedId r.publishedAt k1 with
         | .error e => .error e
         | .ok (db2, k2) =>
           match stepCheck orc k2 with
           | .error e => .error e
           | .ok _ =>
             match stepCheck orc (k2 + 1) with
             | .error e => .error e
             | .ok _ =>
               let db3 :=
                 if db2.summaries.any (·.articleId = rep) then
                   { db2 with summaries := db2.summaries.filter (·.articleId ≠ r.id) }
                 else
                   { db2 with summaries := db2.summaries.map fun s =>
                       if s.articleId = r.id then { s with articleId := rep } else s }
               match stepCheck orc (k2 + 2) with
               | .error e => .error e
               | .ok _ =>
                 match stepCheck orc (k2 + 3) with
                 | .error e => .error e
                 | .ok _ =>
                   let db4 :=
                     if db3.saved.any (·.articleId = rep) then
                       { db3 with saved := db3.saved.filter (·.articleId ≠ r.id) }
                     else
                       { db3 with saved := db3.saved.map fun s =>
                           if s.articleId = r.id then { s with articleId := rep } else s }
                   match stepCheck orc (k2 + 4) with
                   | .error e => .error e
                   | .ok _ => .ok (deleteArticleCascade db4 r.id, m, k2 + 5))
      | none =>
        match ensureArticleSourceI orc db1 r.id r.feedId r.publishedAt k1 with
        | .error e => .error e
        | .ok (db2, k2) => .ok (db2, m ++ [(normalized, r.id)], k2)

def mergeLoopI (orc : Oracle) :
    List MergeRow → DB → List (Str × Nat) → Nat → Except Err (DB × Nat)
  | [], db, _, k => .ok (db, k)
  | r :: rs, db, m, k =>
    match mergeStepI orc db m r k with
    | .error e => .error e
    | .ok (db', m', k') => mergeLoopI orc rs db' m' k'

/-- The transaction body of `MergeDuplicateArticles` with failure points:
begin, scan, loop, commit. -/
def mergeInner (orc : Oracle) (db : DB) : Except Err DB :=
  match stepCheck orc 0 with
  | .error e => .error e
  | .ok _ =>
    match stepCheck orc 1 with
    | .error e => .error e
    | .ok _ =>
      match mergeLoopI orc ((sortByKey (·.id) db.articles).map Article.toMergeRow) db [] 2 with
      | .error e => .error e
      | .ok (db', k) =>
        match stepCheck orc k with
        | .error e => .error e
        | .ok _ => .ok db'

/-- `MergeDuplicateArticles` with failure points: one transaction; any
failure rolls back to the original state. -/
def mergeDuplicateArticlesI (orc : Oracle) (db : DB) : Except Err Unit × DB :=
  match mergeInner orc db with
  | .error e => (.error e, db)
  | .ok db' => (.ok (), db')

/-- The body of `DeleteArticle` with failure points: the pre-transaction
fetch (whose failure is reported as "article not found", with nothing
written), then one transaction (begin; delete article, summaries, saved;
insert tombstone; commit). -/
def deleteArticleInner (orc : Oracle) (db : DB) (id : Nat) (now : Int) :
    Except Err (Article × DB) :=
  match stepCheck orc 0 with
  | .error _ => .error .notFound
  | .ok _ =>
    match (sortByKey (·.id) db.articles).find? (·.id = id) with
    | none => .error .notFound
    | some a =>
      match a.baseUrl with
      | none => .error .notFound
      | some b =>
        match stepCheck orc 1 with
        | .error e => .error e
        | .ok _ =>
          match stepCheck orc 2 with
          | .error e => .error e
          | .ok _ =>
            match stepCheck orc 3 with
            | .error e => .error e
            | .ok _ =>
              match stepCheck orc 4 with
              | .error e => .error e
              | .ok _ =>
                match stepCheck orc 5 with
                | .error e => .error e
                | .ok _ =>
                  match stepCheck orc 6 with
                  | .error e => .error e
                  | .ok _ =>
                    let db1 := deleteArticleCascade db id
                    let drow : DeletedRow :=
                      { id := db1.nextDeletedId, feedId := a.feedId,
                        guid := a.guid, title := a.title, url := a.url,
                        baseUrl := some b, author := a.author,
                        content := a.content, contentText := a.contentText,
                        publishedAt := a.publishedAt, fetchedAt := a.fetchedAt,
                        isRead := a.isRead, isStarred := a.isStarred,
                        feedTitle := a.feedTitle, deletedAt := now }
                    .ok (a, { db1 with deleted := db1.deleted ++ [drow] })

/-- `DeleteArticle` with failure points: any failure leaves the original
state visible (the only pre-transaction statement is a read). -/
def deleteArticleI (orc : Oracle) (db : DB) (id : Nat) (now : Int) :
    Except Err Article × DB :=
  match deleteArticleInner orc db id now with
  | .error e => (.error e, db)
  | .ok (a, dbF) => (.ok a, dbF)

/-- `UndeleteLast` with failure points.  There is no transaction: the
article insert (step 1) autocommits before `LastInsertId` (step 2) and the
tombstone delete (step 3) run, so a failure at step 2 or 3 leaves the
restored article inserted with its tombstone still present. -/
def undeleteLastI (orc : Oracle) (db : DB) : Except Err Article × DB :=
  match stepCheck orc 0 with
  | .error _ => (.error .noDeleted, db)
  | .ok _ =>
    match (sortByKey (·.id) db.deleted).getLast? with
    | none => (.error .noDeleted, db)
    | some d =>
      match d.baseUrl with
      | none => (.error .noDeleted, db)
      | some b0 =>
        let b := if b0 = [] then baseURL d.url else b0
        let a : Article :=
          { id := 0, feedId := d.feedId, guid := d.guid, title := d.title,
            url := d.url, baseUrl := some b, author := d.author,
            content := d.content, contentText := d.contentText,
            publishedAt := d.publishedAt, fetchedAt := d.fetchedAt,
            isRead := d.isRead, isStarred := d.isStarred,
            feedTitle := d.feedTitle }
        match stepCheck orc 1 with
        | .error e => (.error e, db)
        | .ok _ =>
          match insertArticleRow db a with
          | .error e => (.error e, db)
          | .ok (id, db1) =>
            match stepCheck orc 2 with
            | .error e => (.error e, db1)
            | .ok _ =>
              match stepCheck orc 3 with
              | .error e => (.error e, db1)
              | .ok _ =>
                (.ok { a with id := id },
                 { db1 with deleted := db1.deleted.filter (·.id ≠ d.id) })

/-- The claim's example tombstone: same identity as the live article,
read=false, starred=true, published within the window. -/
def c6tomb : DeletedRow :=
  { id := 1, feedId := 1, guid := "g2".toList, title := "Deleted".toList,
    url := "https://example.com/a?x=2".toList,
    baseUrl := some "https://example.com/a".toList, author := [], content := [],
    contentText := [], publishedAt := 1000, fetchedAt := 1000,
    isRead := false, isStarred := true, feedTitle := "Feed".toList,
    deletedAt := 1000 }

/-- A live already-read article plus the example tombstone. -/
def c6db : DB :=
  { DB.empty with
    feeds := [exFeed],
    articles := [{ exRow 1 1 "g1" "https://example.com/a?x=1" "https://example.com/a" 0 with
                   isRead := true }],
    sources := [⟨1, 1, 0⟩],
    deleted := [c6tomb] }

/-- The store state after the source pairing of the example fold has been
refreshed with the tombstone's timestamp. -/
def c6dbE : DB := { c6db with sources := [⟨1, 1, 1000⟩] }

/-- A store with one live article and one tombstone. -/
def c5db : DB :=
  { DB.empty with
    feeds := [exFeed],
    articles := [exRow 1 1 "g0" "u0" "u0" 3],
    deleted := [⟨1, 1, "g1".toList, "T".toList, "u".toList,
                 some "u".toList, [], [], [], 5, 6, false, false, [], 7⟩] }

/-- The store state after importing the export of `c10db`. -/
def c10after : DB :=
  match importState c10db (exportState c10db) with
  | .ok db => db
  | .error _ => DB.empty

/-- A richly-populated live article for the round-trip witness. -/
def c9art : Article :=
  { exRow 7 1 "g9" "https://e.com/p?x=1" "https://e.com/p" 123 with
    isRead := true, isStarred := true }

def c9db : DB :=
  { DB.empty with
    feeds := [exFeed],
    articles := [c9art],
    summaries := [⟨1, 7, "s".toList, [], 0⟩] }

/-- The tombstone `DeleteArticle` materialises for article `a` whose
stored identity is `b`. -/
def tombstoneOf (db : DB) (a : Article) (b : Str) (now : Int) : DeletedRow :=
  { id := (deleteArticleCascade db a.id).nextDeletedId, feedId := a.feedId,
    guid := a.guid, title := a.title, url := a.url, baseUrl := some b,
    author := a.author, content := a.content, contentText := a.contentText,
    publishedAt := a.publishedAt, fetchedAt := a.fetchedAt,
    isRead := a.isRead, isStarred := a.isStarred, feedTitle := a.feedTitle,
    deletedAt := now }

/-- The store state after `DeleteArticle` succeeds on `a`. -/
def afterDelete (db : DB) (a : Article) (b : Str) (now : Int) : DB :=
  { deleteArticleCascade db a.id with
    deleted := (deleteArticleCascade db a.id).deleted ++ [tombstoneOf db a b now] }

/-- The article `UndeleteLast` re-inserts after `DeleteArticle` on `a`. -/
def restoredOf (db : DB) (a : Article) (b : Str) (now : Int) : Article :=
  { id := (afterDelete db a b now).nextArticleId, feedId := a.feedId,
    guid := a.guid, title := a.title, url := a.url, baseUrl := some b,
    author := a.author, content := a.content, contentText := a.contentText,
    publishedAt := a.publishedAt, fetchedAt := a.fetchedAt,
    isRead := a.isRead, isStarred := a.isStarred, feedTitle := a.feedTitle }

/-- The store state after the delete/undo round trip on `a`. -/
def afterUndelete (db : DB) (a : Article) (b : Str) (now : Int) : DB :=
  { afterDelete db a b now with
    articles := (afterDelete db a b now).articles ++ [restoredOf db a b now],
    deleted := ((afterDelete db a b now).deleted).filter
      (fun y => y.id ≠ (tombstoneOf db a b now).id) }

/-- The hypotheses under which reconciliation is idempotent: primary-key
ids and no leading/trailing whitespace in urls or stored identities. -/
def trimStableDB (db : DB) : Prop :=
  (db.articles.map (fun a => a.id)).Nodup ∧
  ∀ a ∈ db.articles, goTrimSpace a.url = a.url ∧
    ∃ b, a.baseUrl = some b ∧ goTrimSpace b = b

/-- A reconciled store: distinct ids, every stored identity a fixed point
of the per-row recomputation, pairwise distinct identities, and every
article's own (article, feed) source pairing present. -/
def Reconciled (db : DB) : Prop :=
  (db.articles.map (fun a => a.id)).Nodup ∧
  (∀ a ∈ db.articles, ∃ b, a.baseUrl = some b ∧
      mergeNormalized (Article.toMergeRow a) b = b) ∧
  db.articles.Pairwise (fun x y => x.baseUrl ≠ y.baseUrl) ∧
  (∀ a ∈ db.articles, ∃ s ∈ db.sources, s.articleId = a.id ∧ s.feedId = a.feedId)

/-- A reconciliation-ready store: distinct primary keys, no stray
whitespace, two articles sharing the derived identity `http://a/x`. -/
def c2stable : DB :=
  { DB.empty with
    feeds := [exFeed],
    articles := [exRow 1 1 "g1" "http://a/x?p=1" "" 10,
                 exRow 2 1 "g2" "http://a/x?p=2" "" 0] }

/-- What one reconcile pass makes of `c2stable`: article 2 merged into
article 1, one source pairing, the stored identity rewritten. -/
def c2merged : DB :=
  { DB.empty with
    feeds := [exFeed],
    articles := [exRow 1 1 "g1" "http://a/x?p=1" "http://a/x" 10],
    sources := [⟨1, 1, 10⟩] }

/-- Two live rows may share a stored identity only when that identity is
absent or blank (`TrimSpace` empty) — the regime `findArticleIDByBaseURL`
never consults. -/
def identBlankPair (x y : Article) : Prop :=
  x.baseUrl = y.baseUrl →
    x.baseUrl.map goTrimSpace = none ∨ x.baseUrl.map goTrimSpace = some []

/-- The no-duplicate-identity invariant ingest actually maintains. -/
def DistinctIdent (db : DB) : Prop := db.articles.Pairwise identBlankPair

instance (x y : Article) : Decidable (identBlankPair x y) := by
  unfold identBlankPair
  infer_instance

instance (db : DB) : Decidable (DistinctIdent db) := by
  unfold DistinctIdent
  infer_instance

/-- The two rows a fresh two-article ingest of distinct identities
produces. -/
def c1a1 : Article :=
  { exRow 1 1 "g1" "http://x/p?1" "http://x/p" 5 with
    feedTitle := "Feed".toList }

def c1a2 : Article :=
  { exRow 2 1 "g2" "http://y/q" "http://y/q" 6 with
    feedTitle := "Feed".toList }

/-- The result of that ingest into the empty store `exDB0`. -/
def c1post : List Article × DB :=
  ([c1a1, c1a2],
   { DB.empty with
     feeds := [{ exFeed with lastFetched := 1000, updatedAt := 1000 }],
     articles := [c1a1, c1a2],
     sources := [⟨1, 1, 5⟩, ⟨2, 1, 6⟩] })

/-- Freedom from the query and fragment marker characters. -/
def NoMarker (l : Str) : Prop := '#' ∉ l ∧ '?' ∉ l

/-! # Theorems -/

/-- C1, counterexample: immediately after a successful ingest the store can
hold two distinct live articles with the same (empty) base identity: two
batches for the same feed, each with an empty URL and a fresh GUID, both
insert rows whose stored and derived identities are the empty string,
because blank identities are excluded from the fold lookup. -/
theorem c1_dedup_counterexample :
    c1ingestTwice.map (fun db => db.articles.map fun a => (a.id, a.guid, a.baseUrl)) =
      some [(1, "g1".toList, some []), (2, "g2".toList, some [])] := by
  decide

/-- C2, counterexample: reconciliation is not idempotent.  On a store with
two live articles whose URLs strip to an empty normalized URL and differ
only by leading whitespace, the first run keeps both articles (their
fallback identities differ by that whitespace) while the second run trims
the freshly stored identities, finds a collision, and merges: the article
and source counts change from (2,2) after one run to (1,1) after two. -/
theorem c2_idem_counterexample :
    (exceptOk (mergeDuplicateArticles c2db)).map countsOf = some (2, 2, 0, 0) ∧
    ((exceptOk (mergeDuplicateArticles c2db)).bind
        (fun db => exceptOk (mergeDuplicateArticles db))).map countsOf =
      some (1, 1, 0, 0) := by
  constructor
  · decide
  · decide

/-- C3, counterexample: a batch of N = 2 articles with distinct GUIDs and
the same derived identity, ingested into a store with no live articles
(M = 0), creates one new row and one association, not N−M = 2 rows and
N = 2 associations: the second article folds into the row the first one
just created, and the fold adds no association because the pair already
exists. -/
theorem c3_fold_counterexample :
    exDB0.articles = [] ∧
    (match c3run with
     | .ok (added, db) => some (added.length, db.articles.length, db.sources)
     | .error _ => none) = some (1, 1, [⟨1, 1, 5⟩]) := by
  constructor
  · decide
  · decide

/-- C4, counterexample: when reconcile merges duplicate B into
representative A and neither article has a Summary, the post-merge store
has zero Summary rows for A, not exactly one. -/
theorem c4_merge_conservation_counterexample :
    (exceptOk (mergeDuplicateArticles c4db)).map
        (fun db => (db.articles.map (·.id), db.summaries.length)) =
      some ([1], 0) := by
  decide

/-- C7, counterexample: (i) the normalizer is not idempotent — stripping
the query of an opaque URL can leave a trailing space that only the next
application trims; (ii) a URL that fails to parse is returned trimmed, not
unchanged; (iii) a URL ending in a lone "?" parses, and its normalization
retains that "?" (an empty forced query). -/
theorem c7_normalizer_counterexample :
    baseURL (baseURL "mailto:a ?q".toList) ≠ baseURL "mailto:a ?q".toList ∧
    (parsesOk (goTrimSpace " :foo".toList) = false ∧
      baseURL " :foo".toList ≠ " :foo".toList) ∧
    (parsesOk (goTrimSpace "http://x?".toList) = true ∧
      '?' ∈ baseURL "http://x?".toList) := by
  refine ⟨by decide, ⟨by decide, by decide⟩, ⟨by decide, by decide⟩⟩

/-- C8, counterexample: the stored timestamp for a pairing is the first
non-zero timestamp observed, not the earliest. Observing 100 and then the
earlier non-zero value 50 leaves 100 stored. -/
theorem c8_source_timestamp_counterexample :
    ((exceptOk (ensureArticleSource c8db 1 1 100)).bind fun db =>
        exceptOk (ensureArticleSource db 1 1 50)).map (fun db => db.sources) =
      some [⟨1, 1, 100⟩] ∧ (50 : Int) ≠ 0 ∧ (50 : Int) < 100 := by
  refine ⟨by decide, by decide, by decide⟩

/-- C10, counterexample to the recovery clause: after an export-import
round trip the imported articles carry no stored identity and no sources
exist, and a subsequent reconciliation run fails with a scan error on the
`NULL` identity instead of recomputing identities. -/
theorem c10_import_counterexample :
    (match importState c10db (exportState c10db) with
     | .ok db => some (db.articles.map (fun a => a.baseUrl), db.sources,
                       isScanErr (mergeDuplicateArticles db))
     | .error _ => none) = some ([none], [], true) := by
  decide

/-- C5, amended: ingest, reconcile and delete each run as exactly one
store transaction — whichever statement fails (at any injected index), the
caller-visible state is the original one — but undo-last restore is not
transactional (see the counterexample). -/
theorem c5_atomicity_amended :
    (∀ orc db feed incoming now e,
        (insertArticlesI orc db feed incoming now).1 = .error e →
        (insertArticlesI orc db feed incoming now).2 = db) ∧
    (∀ orc db e,
        (mergeDuplicateArticlesI orc db).1 = .error e →
        (mergeDuplicateArticlesI orc db).2 = db) ∧
    (∀ orc db id now e,
        (deleteArticleI orc db id now).1 = .error e →
        (deleteArticleI orc db id now).2 = db) := by
  refine ⟨?_, ?_, ?_⟩
  · intro orc db feed incoming now e h
    unfold insertArticlesI at h ⊢
    cases hI : insertArticlesInner orc db feed incoming now with
    | error e' => simp [hI]
    | ok p => rw [hI] at h; obtain ⟨added, dbF⟩ := p; simp at h
  · intro orc db e h
    unfold mergeDuplicateArticlesI at h ⊢
    cases hI : mergeInner orc db with
    | error e' => simp [hI]
    | ok db' => rw [hI] at h; simp at h
  · intro orc db id now e h
    unfold deleteArticleI at h ⊢
    cases hI : deleteArticleInner orc db id now with
    | error e' => simp [hI]
    | ok p => rw [hI] at h; obtain ⟨a, dbF⟩ := p; simp at h

/-- C5, counterexample: a failure of the tombstone delete inside
`UndeleteLast` (statement index 3) leaves a partial write visible — the
restored article row is inserted while its tombstone is still present —
and the call reports an error. -/
theorem c5_atomicity_counterexample :
    (undeleteLastI (failAt 3) c5db).1 = .error .injected ∧
    (undeleteLastI (failAt 3) c5db).2 ≠ c5db ∧
    ((undeleteLastI (failAt 3) c5db).2).articles.length = 2 ∧
    ((undeleteLastI (failAt 3) c5db).2).deleted.length = 1 := by
  refine ⟨by decide, by decide, by decide, by decide⟩

/-- C5, witness: the amended theorem at a concrete input — a commit
failure in `DeleteArticle` (statement index 6) reports an error and leaves
the store unchanged. -/
theorem c5_atomicity_witness :
    (deleteArticleI (failAt 6) c5db 1 9).1 = .error .injected ∧
    (deleteArticleI (failAt 6) c5db 1 9).2 = c5db :=
  ⟨by decide, c5_atomicity_amended.2.2 (failAt 6) c5db 1 9 .injected (by decide)⟩

/-- C6: restore-by-window flag OR-merge policy (modelled from the spec;
the implementation is absent from the sources).  When a processed
tombstone's recomputed identity matches a live article, the fold updates
that article's flags to `existing.read AND restoring.read` and
`existing.starred OR restoring.starred` and removes the tombstone; on the
claim's example — live article read=true merged with an in-window
tombstone read=false, starred=true — restore-by-window reports one
restored tombstone and yields a live article with read=false and
starred=true, with the tombstone gone. -/
theorem c6_restore_flags :
    (∀ (db dbE : DB) (d : DeletedRow),
      findArticleIDByBaseURL db (tombstoneIdentity d) ≠ 0 →
      ensureArticleSource db (findArticleIDByBaseURL db (tombstoneIdentity d))
          d.feedId d.publishedAt = .ok dbE →
      undeleteOne db d = .ok
        { dbE with
          articles := dbE.articles.map fun (a : Article) =>
            if a.id = findArticleIDByBaseURL db (tombstoneIdentity d) then
              { a with isRead := a.isRead && d.isRead,
                       isStarred := a.isStarred || d.isStarred }
            else a,
          deleted := dbE.deleted.filter (·.id ≠ d.id) }) ∧
    (match undeleteByPublishedDays c6db 1000 3 with
     | .ok (n, db) =>
       some (n, db.articles.map fun (a : Article) => (a.isRead, a.isStarred),
             db.deleted.length)
     | .error _ => none) = some (1, [(false, true)], 0) := by
  constructor
  · intro db dbE d hex hens
    unfold undeleteOne
    rw [if_pos hex, hens]
  · decide

/-- C6, witness: the flag-policy theorem applied to the example store. -/
theorem c6_restore_flags_witness :
    undeleteOne c6db c6tomb = .ok
      { c6dbE with
        articles := c6dbE.articles.map fun (a : Article) =>
          if a.id = findArticleIDByBaseURL c6db (tombstoneIdentity c6tomb) then
            { a with isRead := a.isRead && c6tomb.isRead,
                     isStarred := a.isStarred || c6tomb.isStarred }
          else a,
        deleted := c6dbE.deleted.filter (·.id ≠ c6tomb.id) } :=
  c6_restore_flags.1 c6db c6dbE c6tomb (by decide) (by decide)

/-- Helper: `find?` over a map by a function that preserves the predicate
follows the original `find?`. -/
theorem find?_map_pres {α : Type} (f : α → α) (p : α → Bool) (l : List α)
    (h : ∀ x, p (f x) = p x) : (l.map f).find? p = (l.find? p).map f := by
  induction l with
  | nil => rfl
  | cons a l ih =>
    by_cases hp : p a = true
    · rw [List.map_cons, List.find?_cons_of_pos _ (by rw [h a]; exact hp),
          List.find?_cons_of_pos _ hp, Option.map_some']
    · rw [List.map_cons,
          List.find?_cons_of_neg _ (by rw [h a]; simpa using hp),
          List.find?_cons_of_neg _ (by simpa using hp), ih]

/-- Helper: `find?` over an append when the first part has no match. -/
theorem find?_append_none {α : Type} (p : α → Bool) (l₁ l₂ : List α)
    (h : l₁.find? p = none) : (l₁ ++ l₂).find? p = l₂.find? p := by
  induction l₁ with
  | nil => rfl
  | cons a l ih =>
    by_cases hp : p a = true
    · rw [List.find?_cons_of_pos _ hp] at h; cases h
    · rw [List.find?_cons_of_neg _ (by simpa using hp)] at h
      rw [List.cons_append, List.find?_cons_of_neg _ (by simpa using hp), ih h]

/-- Helper: filtering for a key after filtering it away yields nothing. -/
theorem filter_ne_then_eq {α : Type} (key : α → Nat) (i : Nat) (l : List α) :
    (l.filter (fun x => key x ≠ i)).filter (fun x => key x = i) = [] := by
  rw [List.filter_filter]
  simp only [ne_eq, decide_not]
  induction l with
  | nil => rfl
  | cons a l ih => by_cases h : key a = i <;> simp [List.filter_cons, h, ih]

/-- Helper: filtering a different key is unaffected by removing key `i`. -/
theorem filter_eq_of_filter_ne {α : Type} (key : α → Nat) (i j : Nat)
    (h : j ≠ i) (l : List α) :
    (l.filter (fun x => key x ≠ i)).filter (fun x => key x = j) =
      l.filter (fun x => key x = j) := by
  rw [List.filter_filter]
  simp only [ne_eq, decide_not]
  induction l with
  | nil => rfl
  | cons a l ih =>
    by_cases ha : key a = j
    · have hai : ¬ key a = i := by rw [ha]; exact h
      simp [List.filter_cons, ha, hai, h, ih]
    · simp [List.filter_cons, ha, ih]

/-- Helper: with pairwise-distinct keys, at most one element carries a
given key. -/
theorem length_filter_key_le_one {α : Type} (key : α → Nat) (j : Nat)
    (l : List α) (h : l.Pairwise (fun x y => key x ≠ key y)) :
    (l.filter (fun x => key x = j)).length ≤ 1 := by
  induction l with
  | nil => simp
  | cons a l ih =>
    have h' := List.Pairwise.of_cons h
    by_cases ha : key a = j
    · have : l.filter (fun x => key x = j) = [] := by
        apply List.filter_eq_nil_iff.mpr
        intro x hx
        have := (List.pairwise_cons.mp h).1 x hx
        simp only [decide_eq_true_eq]
        rw [ha] at this
        exact fun hk => this hk.symm
      simp [ha, this]
    · simpa [ha] using ih h'

/-- Helper: retargeting key `i` to `j` and then dropping key `i` leaves,
at key `j`, exactly the retargeted rows (summaries form). -/
theorem summaries_retarget (i j : Nat) (hji : j ≠ i) (l : List SummaryRow)
    (hnone : l.any (·.articleId = j) = false) :
    (((l.map fun s => if s.articleId = i then { s with articleId := j } else s).filter
        (fun s => s.articleId ≠ i)).filter (fun s => s.articleId = j)) =
      (l.filter (fun s => s.articleId = i)).map
        (fun s => { s with articleId := j }) := by
  rw [List.filter_filter]
  simp only [ne_eq, decide_not]
  induction l with
  | nil => rfl
  | cons a l ih =>
    simp only [List.any_cons, Bool.or_eq_false_iff] at hnone
    have haj : ¬ a.articleId = j := by simpa using hnone.1
    by_cases ha : a.articleId = i
    · simp [List.map_cons, List.filter_cons, ha, hji, Ne.symm hji, ih hnone.2]
    · simp [List.map_cons, List.filter_cons, ha, haj, ih hnone.2]

/-- Helper: the saved-bookmark form of `summaries_retarget`. -/
theorem saved_retarget (i j : Nat) (hji : j ≠ i) (l : List SavedRow)
    (hnone : l.any (·.articleId = j) = false) :
    (((l.map fun s => if s.articleId = i then { s with articleId := j } else s).filter
        (fun s => s.articleId ≠ i)).filter (fun s => s.articleId = j)) =
      (l.filter (fun s => s.articleId = i)).map
        (fun s => { s with articleId := j }) := by
  rw [List.filter_filter]
  simp only [ne_eq, decide_not]
  induction l with
  | nil => rfl
  | cons a l ih =>
    simp only [List.any_cons, Bool.or_eq_false_iff] at hnone
    have haj : ¬ a.articleId = j := by simpa using hnone.1
    by_cases ha : a.articleId = i
    · simp [List.map_cons, List.filter_cons, ha, hji, Ne.symm hji, ih hnone.2]
    · simp [List.map_cons, List.filter_cons, ha, haj, ih hnone.2]

/-- Helper: `ensureArticleSource` touches only the sources table. -/
theorem ensure_preserves (db db2 : DB) (aid fid : Nat) (p : Int)
    (h : ensureArticleSource db aid fid p = .ok db2) :
    db2.summaries = db.summaries ∧ db2.saved = db.saved ∧
    db2.articles = db.articles ∧ db2.feeds = db.feeds ∧
    db2.deleted = db.deleted := by
  unfold ensureArticleSource at h
  split at h
  · split at h <;> (cases h; exact ⟨rfl, rfl, rfl, rfl, rfl⟩)
  · split at h
    · cases h; exact ⟨rfl, rfl, rfl, rfl, rfl⟩
    · cases h

/-- Helper: the cascade delete filters the summaries table. -/
theorem cascade_summaries (db : DB) (i : Nat) :
    (deleteArticleCascade db i).summaries =
      db.summaries.filter (·.articleId ≠ i) := rfl

/-- Helper: the cascade delete filters the saved table. -/
theorem cascade_saved (db : DB) (i : Nat) :
    (deleteArticleCascade db i).saved = db.saved.filter (·.articleId ≠ i) := rfl

/-- C4, amended: whenever a reconcile pass merges duplicate B (id `r.id`)
into representative A (id `rep`, recorded earlier, `rep ≠ r.id`), the
post-merge summaries hold no row for B; the rows for A are exactly A's
own pre-merge rows when A had any, and otherwise B's rows retargeted onto
A; and under the schema's uniqueness (at most one summary per article in
the pre-state, no summary yet for A in the retarget case) at most one
summary for A remains — never two.  The same discard-or-move rule holds
for saved bookmarks. -/
theorem c4_merge_conservation_amended (db : DB) (m : List (Str × Nat))
    (r : MergeRow) (b : Str) (rep : Nat) (db' : DB) (m' : List (Str × Nat))
    (hb : r.base = some b)
    (hrep : lookupBase m (mergeNormalized r b) = some rep)
    (hne : rep ≠ r.id)
    (hstep : mergeStep db m r = .ok (db', m')) :
    (db'.summaries.filter (fun s => s.articleId = r.id) = [] ∧
     db'.summaries.filter (fun s => s.articleId = rep) =
       (if db.summaries.any (·.articleId = rep) then
          db.summaries.filter (fun s => s.articleId = rep)
        else (db.summaries.filter (fun s => s.articleId = r.id)).map
          (fun s => { s with articleId := rep })) ∧
     (db.summaries.Pairwise (fun x y => x.articleId ≠ y.articleId) →
        (db'.summaries.filter (fun s => s.articleId = rep)).length ≤ 1)) ∧
    (db'.saved.filter (fun s => s.articleId = r.id) = [] ∧
     db'.saved.filter (fun s => s.articleId = rep) =
       (if db.saved.any (·.articleId = rep) then
          db.saved.filter (fun s => s.articleId = rep)
        else (db.saved.filter (fun s => s.articleId = r.id)).map
          (fun s => { s with articleId := rep })) ∧
     (db.saved.Pairwise (fun x y => x.articleId ≠ y.articleId) →
        (db'.saved.filter (fun s => s.articleId = rep)).length ≤ 1)) := by
  unfold mergeStep at hstep
  rw [hb] at hstep
  simp only [hrep] at hstep
  revert hstep
  generalize hdb1 :
    (if mergeNormalized r b ≠ b then
      { db with articles := db.articles.map fun a =>
          if a.id = r.id then { a with baseUrl := some (mergeNormalized r b) }
          else a }
     else db) = db1
  have hdb1s : db1.summaries = db.summaries ∧ db1.saved = db.saved := by
    rw [← hdb1]; split <;> exact ⟨rfl, rfl⟩
  intro hstep
  cases hE : ensureArticleSource db1 rep r.feedId r.publishedAt with
  | error e => rw [hE] at hstep; cases hstep
  | ok db2 =>
    rw [hE] at hstep
    have hpres := ensure_preserves db1 db2 rep r.feedId r.publishedAt hE
    have hsum2 : db2.summaries = db.summaries := hpres.1.trans hdb1s.1
    have hsav2 : db2.saved = db.saved := hpres.2.1.trans hdb1s.2
    cases hstep
    constructor
    · constructor
      · simp only [cascade_summaries]
        exact filter_ne_then_eq (fun s : SummaryRow => s.articleId) r.id _
      · by_cases hany : db2.summaries.any (·.articleId = rep) = true
        · have hany' : db.summaries.any (·.articleId = rep) = true := by
            rw [← hsum2]; exact hany
          constructor
          · simp only [cascade_summaries, apply_ite DB.summaries, ite_self,
                       hany, if_true, hany']
            rw [filter_eq_of_filter_ne _ _ _ hne, filter_eq_of_filter_ne _ _ _ hne,
                hsum2]
          · intro hpw
            simp only [cascade_summaries, apply_ite DB.summaries, ite_self,
                       hany, if_true]
            rw [filter_eq_of_filter_ne _ _ _ hne, filter_eq_of_filter_ne _ _ _ hne,
                hsum2]
            exact length_filter_key_le_one _ _ _ hpw
        · have hany0 : db2.summaries.any (·.articleId = rep) = false := by
            simpa using hany
          have hany' : db.summaries.any (·.articleId = rep) = false := by
            rw [← hsum2]; exact hany0
          constructor
          · simp only [cascade_summaries, apply_ite DB.summaries, ite_self,
                       hany0, Bool.false_eq_true, if_false, hany']
            rw [hsum2]
            exact summaries_retarget r.id rep hne db.summaries hany'
          · intro hpw
            simp only [cascade_summaries, apply_ite DB.summaries, ite_self,
                       hany0, Bool.false_eq_true, if_false]
            rw [hsum2, summaries_retarget r.id rep hne db.summaries hany',
                List.length_map]
            exact length_filter_key_le_one _ _ _ hpw
    · constructor
      · simp only [cascade_saved]
        exact filter_ne_then_eq (fun s : SavedRow => s.articleId) r.id _
      · by_cases hany : db2.saved.any (·.articleId = rep) = true
        · have hany' : db.saved.any (·.articleId = rep) = true := by
            rw [← hsav2]; exact hany
          constructor
          · simp only [cascade_saved, apply_ite DB.saved, ite_self, hany,
                       if_true, hany']
            rw [filter_eq_of_filter_ne _ _ _ hne, filter_eq_of_filter_ne _ _ _ hne,
                hsav2]
          · intro hpw
            simp only [cascade_saved, apply_ite DB.saved, ite_self, hany, if_true]
            rw [filter_eq_of_filter_ne _ _ _ hne, filter_eq_of_filter_ne _ _ _ hne,
                hsav2]
            exact length_filter_key_le_one _ _ _ hpw
        · have hany0 : db2.saved.any (·.articleId = rep) = false := by
            simpa using hany
          have hany' : db.saved.any (·.articleId = rep) = false := by
            rw [← hsav2]; exact hany0
          constructor
          · simp only [cascade_saved, apply_ite DB.saved, ite_self, hany0,
                       Bool.false_eq_true, if_false, hany']
            rw [hsav2]
            exact saved_retarget r.id rep hne db.saved hany'
          · intro hpw
            simp only [cascade_saved, apply_ite DB.saved, ite_self, hany0,
                       Bool.false_eq_true, if_false]
            rw [hsav2, saved_retarget r.id rep hne db.saved hany',
                List.length_map]
            exact length_filter_key_le_one _ _ _ hpw

/-- C4, witness: the amended theorem at the concrete two-duplicate state
where only B (id 2) has a summary and a bookmark: after the merge step no
summary remains for B and at most one summary exists for A. -/
theorem c4_merge_conservation_witness :
    c4after.summaries.filter (fun s => s.articleId = 2) = [] ∧
    (c4dbS.summaries.Pairwise (fun x y => x.articleId ≠ y.articleId) →
      (c4after.summaries.filter (fun s => s.articleId = 1)).length ≤ 1) :=
  ⟨(c4_merge_conservation_amended c4dbS c4m c4row "https://e.com/p".toList 1
      c4after c4m (by decide) (by decide) (by decide) (by decide)).1.1,
   (c4_merge_conservation_amended c4dbS c4m c4row "https://e.com/p".toList 1
      c4after c4m (by decide) (by decide) (by decide) (by decide)).1.2.2⟩

/-- Helper: membership in an insertion-sort insert. -/
theorem mem_sortInsert {α : Type} (key : α → Nat) (a x : α) (l : List α) :
    x ∈ sortInsert key a l ↔ x = a ∨ x ∈ l := by
  induction l with
  | nil => simp [sortInsert]
  | cons b l ih =>
    unfold sortInsert
    split
    · simp
    · simp only [List.mem_cons, ih]
      tauto

/-- Helper: sorting by a key preserves membership. -/
theorem mem_sortByKey {α : Type} (key : α → Nat) (x : α) (l : List α) :
    x ∈ sortByKey key l ↔ x ∈ l := by
  induction l with
  | nil => simp [sortByKey]
  | cons a l ih =>
    unfold sortByKey
    rw [mem_sortInsert, ih]
    simp

/-- Helper: `find?` returns the unique matching element. -/
theorem find?_unique {α : Type} (p : α → Bool) (l : List α) (a : α)
    (ha : p a = true) (hmem : a ∈ l)
    (huniq : ∀ x ∈ l, p x = true → x = a) : l.find? p = some a := by
  induction l with
  | nil => cases hmem
  | cons b l ih =>
    by_cases hb : p b = true
    · rw [List.find?_cons_of_pos _ hb, huniq b (List.mem_cons_self b l) hb]
    · rw [List.find?_cons_of_neg _ (by simpa using hb)]
      have hal : a ∈ l := by
        rcases List.mem_cons.mp hmem with h | h
        · rw [h] at ha; exact absurd ha hb
        · exact h
      exact ih hal (fun x hx hpx => huniq x (List.mem_cons_of_mem b hx) hpx)

/-- Helper: members bound the fold-max. -/
theorem le_foldr_max (n : Nat) (l : List Nat) (h : n ∈ l) :
    n ≤ l.foldr max 0 := by
  induction l with
  | nil => cases h
  | cons a l ih =>
    rcases List.mem_cons.mp h with h | h
    · rw [h]; exact Nat.le_max_left _ _
    · exact le_trans (ih h) (Nat.le_max_right _ _)

/-- Helper: inserting below the concatenated maximum keeps the maximum
last. -/
theorem sortInsert_concat_big {α : Type} (key : α → Nat) (a x : α)
    (s : List α) (h : key a ≤ key x) :
    sortInsert key a (s ++ [x]) = sortInsert key a s ++ [x] := by
  induction s with
  | nil => simp [sortInsert, h]
  | cons c s ih =>
    by_cases hc : key a ≤ key c
    · simp [sortInsert, hc]
    · simp [sortInsert, hc, ih]

/-- Helper: sorting a list with a strictly-largest last element keeps it
last. -/
theorem sortByKey_concat_big {α : Type} (key : α → Nat) (l : List α) (x : α)
    (h : ∀ y ∈ l, key y ≤ key x) :
    sortByKey key (l ++ [x]) = sortByKey key l ++ [x] := by
  induction l with
  | nil => rfl
  | cons b l ih =>
    unfold sortByKey
    rw [List.cons_append]
    show sortInsert key b (sortByKey key (l ++ [x])) = _
    rw [ih (fun y hy => h y (List.mem_cons_of_mem b hy)),
        sortInsert_concat_big key b x _ (h b (List.mem_cons_self b l))]

/-- C9: delete/undo round-trip.  For a live article `a` (unique id, its
(feed, guid) pair unique among live rows, and a stored identity that is
only blank when the recomputed identity is blank too — the invariant every
reachable live row satisfies), deleting it and then restoring the last
tombstone yields a live article equal to `a` in every field except its
id. -/
theorem c9_delete_undo_roundtrip (db : DB) (a : Article) (b : Str) (now : Int)
    (hmem : a ∈ db.articles)
    (hbase : a.baseUrl = some b)
    (hblank : b = [] → baseURL a.url = [])
    (hid : ∀ x ∈ db.articles, x.id = a.id → x = a)
    (hguid : ∀ x ∈ db.articles, x ≠ a →
      ¬(x.feedId = a.feedId ∧ x.guid = a.guid)) :
    ∃ db1 restored db2,
      deleteArticle db a.id now = .ok (a, db1) ∧
      undeleteLast db1 = .ok (restored, db2) ∧
      restored.sansId = a.sansId ∧
      restored ∈ db2.articles := by
  have hfind : (sortByKey (fun x => x.id) db.articles).find?
      (fun x => x.id = a.id) = some a := by
    apply find?_unique
    · simp
    · exact (mem_sortByKey _ _ _).mpr hmem
    · intro x hx hpx
      exact hid x ((mem_sortByKey _ _ _).mp hx) (by simpa using hpx)
  have hball : (if b = [] then baseURL a.url else b) = b := by
    by_cases hb0 : b = []
    · rw [if_pos hb0, hblank hb0, hb0]
    · rw [if_neg hb0]
  have hdel : deleteArticle db a.id now = .ok (a, afterDelete db a b now) := by
    unfold deleteArticle
    rw [hfind]
    dsimp only
    rw [hbase]
    rfl
  have hsort :
      (sortByKey (fun y => y.id)
        (db.deleted ++ [tombstoneOf db a b now])).getLast? =
        some (tombstoneOf db a b now) := by
    rw [sortByKey_concat_big _ _ _ (fun y hy => by
      show y.id ≤ (tombstoneOf db a b now).id
      unfold tombstoneOf
      dsimp only
      unfold DB.nextDeletedId nextId
      exact le_trans (le_foldr_max y.id _ (List.mem_map_of_mem (fun z => z.id) hy))
        (Nat.le_succ _))]
    exact List.getLast?_concat _
  have hany : ((db.articles.filter (fun x => x.id ≠ a.id)).any
      (fun x => x.feedId = a.feedId ∧ x.guid = a.guid)) = false := by
    rw [List.any_eq_false]
    intro x hx
    have hxmem := List.mem_filter.mp hx
    have hxa : x ≠ a := by
      intro he
      rw [he] at hxmem
      simp at hxmem
    simpa using hguid x hxmem.1 hxa
  refine ⟨afterDelete db a b now, restoredOf db a b now, afterUndelete db a b now,
    hdel, ?_, ?_, ?_⟩
  · unfold undeleteLast
    rw [show (afterDelete db a b now).deleted =
          db.deleted ++ [tombstoneOf db a b now] from rfl, hsort]
    dsimp only [tombstoneOf]
    rw [hball]
    unfold insertArticleRow
    rw [show (afterDelete db a b now).articles =
          db.articles.filter (fun x => x.id ≠ a.id) from rfl, hany]
    rfl
  · show (restoredOf db a b now).sansId = a.sansId
    unfold restoredOf Article.sansId
    rw [← hbase]
  · exact List.mem_append_right _ (List.mem_singleton.mpr rfl)

/-- C9, witness: the round-trip theorem at a concrete store. -/
theorem c9_delete_undo_roundtrip_witness :
    ∃ db1 restored db2,
      deleteArticle c9db c9art.id 999 = .ok (c9art, db1) ∧
      undeleteLast db1 = .ok (restored, db2) ∧
      restored.sansId = c9art.sansId ∧
      restored ∈ db2.articles :=
  c9_delete_undo_roundtrip c9db c9art "https://e.com/p".toList 999
    (by decide) (by decide) (by decide) (by decide) (by decide)

/-- C8, amended: for every (article id, feed id) pair, the stored
published timestamp is the first non-zero timestamp observed for the
pairing: when the pair is absent, the incoming value (even zero) is
stored; a stored zero is overwritten by a non-zero incoming value; a
stored non-zero timestamp is never overwritten. -/
theorem c8_source_timestamp_amended (db : DB) (aid fid : Nat) (p : Int) :
    (sourceFor db aid fid = none →
      db.articles.any (·.id = aid) = true → db.feeds.any (·.id = fid) = true →
      ∃ db', ensureArticleSource db aid fid p = .ok db' ∧
        sourceFor db' aid fid = some ⟨aid, fid, p⟩) ∧
    (∀ s, sourceFor db aid fid = some s → s.publishedAt = 0 → p ≠ 0 →
      ∃ db', ensureArticleSource db aid fid p = .ok db' ∧
        sourceFor db' aid fid = some ⟨aid, fid, p⟩) ∧
    (∀ s, sourceFor db aid fid = some s → s.publishedAt ≠ 0 →
      ∃ db', ensureArticleSource db aid fid p = .ok db' ∧
        sourceFor db' aid fid = some s) := by
  have hpres : ∀ x : SourceRow,
      (fun s : SourceRow => decide (s.articleId = aid ∧ s.feedId = fid))
        ((fun s : SourceRow =>
            if s.articleId = aid ∧ s.feedId = fid ∧ s.publishedAt = 0
            then { s with publishedAt := p } else s) x) =
      (fun s : SourceRow => decide (s.articleId = aid ∧ s.feedId = fid)) x := by
    intro x
    by_cases hc : x.articleId = aid ∧ x.feedId = fid ∧ x.publishedAt = 0
    · simp [hc, hc.1, hc.2.1]
    · simp [hc]
  refine ⟨?_, ?_, ?_⟩
  · intro hnone hart hfeed
    unfold sourceFor at hnone
    refine ⟨{ db with sources := db.sources ++ [⟨aid, fid, p⟩] }, ?_, ?_⟩
    · unfold ensureArticleSource
      rw [hnone]
      simp [hart, hfeed]
    · unfold sourceFor
      simp only
      rw [find?_append_none _ _ _ hnone]
      simp [List.find?_cons]
  · intro s hs hzero hp
    unfold sourceFor at hs
    have hpred := List.find?_some hs
    simp only [decide_eq_true_eq] at hpred
    refine ⟨{ db with sources := db.sources.map fun s =>
        if s.articleId = aid ∧ s.feedId = fid ∧ s.publishedAt = 0
        then { s with publishedAt := p } else s }, ?_, ?_⟩
    · unfold ensureArticleSource
      rw [hs]
      simp [hp]
    · unfold sourceFor
      simp only
      rw [find?_map_pres _ _ _ hpres, hs]
      simp only [Option.map_some']
      congr 1
      simp [hpred.1, hpred.2, hzero]
  · intro s hs hnz
    unfold sourceFor at hs
    have hpred := List.find?_some hs
    simp only [decide_eq_true_eq] at hpred
    by_cases hp : p = 0
    · refine ⟨db, ?_, hs⟩
      unfold ensureArticleSource
      rw [hs]
      simp [hp]
    · refine ⟨{ db with sources := db.sources.map fun s =>
          if s.articleId = aid ∧ s.feedId = fid ∧ s.publishedAt = 0
          then { s with publishedAt := p } else s }, ?_, ?_⟩
      · unfold ensureArticleSource
        rw [hs]
        simp [hp]
      · unfold sourceFor
        simp only
        rw [find?_map_pres _ _ _ hpres, hs]
        simp only [Option.map_some']
        congr 1
        simp [hnz]

/-- C8, witness: the amended theorem at a concrete input — the pair
(1, 1) stores 100; a later observation of the earlier non-zero value 50
leaves 100 stored. -/
theorem c8_source_timestamp_witness :
    ∃ db', ensureArticleSource { c8db with sources := [⟨1, 1, 100⟩] } 1 1 50 =
        .ok db' ∧ sourceFor db' 1 1 = some ⟨1, 1, 100⟩ :=
  (c8_source_timestamp_amended { c8db with sources := [⟨1, 1, 100⟩] } 1 1 50).2.2
    ⟨1, 1, 100⟩ (by decide) (by decide)

/-- Helper: every article inserted by `ImportState` carries no stored
identity. -/
theorem importArticles_none (l : List Article) (acc out : List Article)
    (h : importArticles l acc = .ok out)
    (hacc : ∀ a ∈ acc, a.baseUrl = none) :
    ∀ a ∈ out, a.baseUrl = none := by
  induction l generalizing acc with
  | nil =>
    unfold importArticles at h
    cases h
    exact hacc
  | cons a l ih =>
    unfold importArticles at h
    split at h
    · cases h
    · refine ih _ h ?_
      intro x hx
      rcases List.mem_append.mp hx with hx | hx
      · exact hacc x hx
      · rw [List.mem_singleton.mp hx]
  
/-- Helper: reconcile fails with a scan error as soon as the table is
non-empty and every stored identity is `NULL`. -/
theorem merge_err_of_none (db : DB) (hne : db.articles ≠ [])
    (hnone : ∀ a ∈ db.articles, a.baseUrl = none) :
    ∃ e, mergeDuplicateArticles db = .error e := by
  unfold mergeDuplicateArticles
  cases hs : sortByKey (fun x => x.id) db.articles with
  | nil =>
    rcases List.exists_mem_of_ne_nil db.articles hne with ⟨x, hx⟩
    have := (mem_sortByKey (fun x => x.id) x db.articles).mpr hx
    rw [hs] at this
    cases this
  | cons r rs =>
    have hrmem : r ∈ db.articles := by
      have : r ∈ sortByKey (fun x => x.id) db.articles := by
        rw [hs]; exact List.mem_cons_self r rs
      exact (mem_sortByKey _ _ _).mp this
    refine ⟨.scanErr, ?_⟩
    show mergeLoop (Article.toMergeRow r :: rs.map Article.toMergeRow) db [] = _
    unfold mergeLoop mergeStep
    rw [show (Article.toMergeRow r).base = r.baseUrl from rfl, hnone r hrmem]

/-- C10, amended: after a successful export-then-import round trip every
live article's stored base identity is absent and no feed-to-article
source rows exist; a subsequent reconciliation run does not recompute
identities — it fails on the absent identity whenever any article was
imported. -/
theorem c10_import_amended (db db2 db' : DB) (st : StateSnapshot)
    (hexp : st = exportState db)
    (himp : importState db2 st = .ok db') :
    (∀ a ∈ db'.articles, a.baseUrl = none) ∧
    db'.sources = [] ∧
    (db'.articles ≠ [] → ∃ e, mergeDuplicateArticles db' = .error e) := by
  unfold importState at himp
  rw [hexp] at himp
  simp only [exportState] at himp
  split at himp
  · cases himp
  · cases hf : importFeeds (sortByKey (fun x => x.id) db.feeds) [] with
    | error e => rw [hf] at himp; cases himp
    | ok feeds =>
      rw [hf] at himp
      dsimp only at himp
      cases ha : importArticles db.readArticles [] with
      | error e => rw [ha] at himp; cases himp
      | ok articles =>
        rw [ha] at himp
        dsimp only at himp
        cases hsm : importSummaries articles (sortByKey (fun x => x.id) db.summaries) [] with
        | error e => rw [hsm] at himp; cases himp
        | ok summaries =>
          rw [hsm] at himp
          dsimp only at himp
          cases hsv : importSaved articles (sortByKey (fun x => x.articleId) db.saved) [] with
          | error e => rw [hsv] at himp; cases himp
          | ok saved =>
            rw [hsv] at himp
            dsimp only at himp
            cases himp
            have hnone : ∀ a ∈ articles, a.baseUrl = none :=
              importArticles_none _ _ _ ha (by intro x hx; cases hx)
            exact ⟨hnone, rfl, fun hne => merge_err_of_none _ hne hnone⟩

/-- C10, witness: the amended theorem at the concrete one-article
store. -/
theorem c10_import_witness :
    (∀ a ∈ c10after.articles, a.baseUrl = none) ∧
    c10after.sources = [] ∧
    (c10after.articles ≠ [] → ∃ e, mergeDuplicateArticles c10after = .error e) :=
  c10_import_amended c10db c10db c10after (exportState c10db) rfl (by decide)

/-- Helper: insertion-sort insert is a permutation of consing. -/
theorem sortInsert_perm {α : Type} (key : α → Nat) (a : α) (l : List α) :
    (sortInsert key a l).Perm (a :: l) := by
  induction l with
  | nil => exact List.Perm.refl _
  | cons b l ih =>
    unfold sortInsert
    split
    · exact List.Perm.refl _
    · exact ((ih.cons b).trans (List.Perm.swap a b l))

/-- Helper: sorting is a permutation. -/
theorem sortByKey_perm {α : Type} (key : α → Nat) (l : List α) :
    (sortByKey key l).Perm l := by
  induction l with
  | nil => exact List.Perm.refl _
  | cons a l ih =>
    exact (sortInsert_perm key a (sortByKey key l)).trans (ih.cons a)

/-- Helper: an empty map lookup means the key is absent. -/
theorem lookupBase_none (m : List (Str × Nat)) (k : Str)
    (h : lookupBase m k = none) : ∀ p ∈ m, p.1 ≠ k := by
  intro p hp he
  unfold lookupBase at h
  rcases Option.map_eq_none'.mp h with hf
  have := List.find?_eq_none.mp hf p hp
  simp [he] at this

/-- Helper: a pairing present before `ensureArticleSource` is present
after (the update keeps the pair columns, the insert only appends). -/
theorem ensure_keeps_pairs (db db' : DB) (aid fid : Nat) (p : Int)
    (h : ensureArticleSource db aid fid p = .ok db')
    (aid' fid' : Nat) (s : SourceRow) (hs : s ∈ db.sources)
    (hsa : s.articleId = aid') (hsf : s.feedId = fid') :
    ∃ t ∈ db'.sources, t.articleId = aid' ∧ t.feedId = fid' := by
  unfold ensureArticleSource at h
  split at h
  · split at h
    · cases h
      exact ⟨s, hs, hsa, hsf⟩
    · cases h
      refine ⟨_, List.mem_map_of_mem _ hs, ?_⟩
      split
      · simpa using ⟨hsa, hsf⟩
      · exact ⟨hsa, hsf⟩
  · split at h
    · cases h
      exact ⟨s, List.mem_append_left _ hs, hsa, hsf⟩
    · cases h

/-- Helper: a pairing present in the table makes `ensureArticleSource`
succeed without changing the number of source rows. -/
theorem ensure_present_ok (db : DB) (aid fid : Nat) (p : Int)
    (s : SourceRow) (hs : s ∈ db.sources) (ha : s.articleId = aid)
    (hf : s.feedId = fid) :
    ∃ db', ensureArticleSource db aid fid p = .ok db' ∧
      db'.sources.length = db.sources.length := by
  have hfind : (db.sources.find?
      (fun t => t.articleId = aid ∧ t.feedId = fid)).isSome := by
    rw [List.find?_isSome]
    exact ⟨s, hs, by simp [ha, hf]⟩
  rcases Option.isSome_iff_exists.mp hfind with ⟨t, ht⟩
  unfold ensureArticleSource
  rw [ht]
  dsimp only
  split
  · exact ⟨db, rfl, rfl⟩
  · exact ⟨_, rfl, by simp⟩

/-- Helper: with a whitespace-trimmed URL and stored identity, the
per-row recomputed identity is itself a fixed point. -/
theorem mergeNormalized_fix (r : MergeRow) (b : Str)
    (hu : goTrimSpace r.url = r.url) (hb : goTrimSpace b = b) :
    mergeNormalized r (mergeNormalized r b) = mergeNormalized r b := by
  have hT : goTrimSpace ([] : Str) = [] := rfl
  have hB : baseURL ([] : Str) = [] := by decide
  by_cases h0 : baseURL r.url = []
  · by_cases hbe : b = []
    · by_cases hue : r.url = []
      · simp [mergeNormalized, h0, hbe, hue, hu, hb, hT, hB]
      · simp [mergeNormalized, h0, hbe, hue, hu, hb, hT, hB]
    · simp [mergeNormalized, h0, hbe, hb]
  · simp [mergeNormalized, h0]

/-- Helper: in a list with pairwise-distinct keys, equal keys force equal
elements. -/
theorem nodup_key_eq {α β : Type} (key : α → β) (l : List α)
    (h : (l.map key).Nodup) {a b : α} (ha : a ∈ l) (hb : b ∈ l)
    (hk : key a = key b) : a = b := by
  induction l with
  | nil => cases ha
  | cons c t ih =>
    rw [List.map_cons, List.nodup_cons] at h
    rcases List.mem_cons.mp ha with rfl | ha' <;>
      rcases List.mem_cons.mp hb with h2 | hb'
    · exact h2.symm
    · refine absurd ?_ h.1
      rw [hk]
      exact List.mem_map_of_mem key hb'
    · refine absurd ?_ h.1
      rw [← h2, ← hk]
      exact List.mem_map_of_mem key ha'
    · exact ih h.2 ha' hb'

/-- Helper: the scan step for a fresh identity key. -/
theorem mergeStep_newkey (db : DB) (m : List (Str × Nat)) (r : MergeRow)
    (b : Str) (hrb : r.base = some b) (hkey : mergeNormalized r b = b)
    (hlook : lookupBase m b = none) (db2 : DB)
    (hens : ensureArticleSource db r.id r.feedId r.publishedAt = .ok db2) :
    mergeStep db m r = .ok (db2, m ++ [(b, r.id)]) := by
  unfold mergeStep
  rw [hrb]
  dsimp only
  rw [hkey]
  rw [if_neg (by simp)]
  rw [hlook]
  dsimp only
  rw [hens]

/-- Helper: on a store whose articles all carry fixed-point identities,
pairwise distinct, with their source pairings present, the scan loop
succeeds and changes no table size (sources may only be updated in
place). -/
theorem mergeLoop_fixpoint (db : DB)
    (hfix : ∀ a ∈ db.articles, ∃ b, a.baseUrl = some b ∧
        mergeNormalized (Article.toMergeRow a) b = b)
    (hids : (db.articles.map (fun a => a.id)).Nodup)
    (hpw : db.articles.Pairwise (fun x y => x.baseUrl ≠ y.baseUrl)) :
    ∀ (rows : List MergeRow) (db' : DB) (m : List (Str × Nat)),
    (∀ r ∈ rows, ∃ a ∈ db.articles, Article.toMergeRow a = r) →
    (rows.map (fun r => r.id)).Nodup →
    (∀ p ∈ m, ∀ r ∈ rows, ∀ b, r.base = some b → p.1 ≠ b) →
    db'.articles = db.articles → db'.summaries = db.summaries →
    db'.saved = db.saved → db'.feeds = db.feeds → db'.deleted = db.deleted →
    db'.sources.length = db.sources.length →
    (∀ a ∈ db.articles, ∃ s ∈ db'.sources,
        s.articleId = a.id ∧ s.feedId = a.feedId) →
    ∃ db2, mergeLoop rows db' m = .ok db2 ∧
      db2.articles = db.articles ∧ db2.summaries = db.summaries ∧
      db2.saved = db.saved ∧ db2.feeds = db.feeds ∧
      db2.deleted = db.deleted ∧
      db2.sources.length = db.sources.length := by
  intro rows
  induction rows with
  | nil =>
    intro db' m _ _ _ ha hs hv hf hd hl _
    exact ⟨db', rfl, ha, hs, hv, hf, hd, hl⟩
  | cons r rs ih =>
    intro db' m hrow hnd hm ha hs hv hf hd hl hpair
    obtain ⟨a, hamem, harow⟩ := hrow r (List.mem_cons_self r rs)
    obtain ⟨b, hab, hfixa⟩ := hfix a hamem
    have hrb : r.base = some b := by rw [← harow]; exact hab
    have hkey : mergeNormalized r b = b := by rw [← harow]; exact hfixa
    have hlook : lookupBase m b = none := by
      unfold lookupBase
      have hfn : m.find? (fun p => p.1 = b) = none := by
        rw [List.find?_eq_none]
        intro p hp
        have := hm p hp r (List.mem_cons_self r rs) b hrb
        simpa using this
      rw [hfn]
      rfl
    obtain ⟨s, hsmem, hsa, hsf⟩ := hpair a hamem
    have hsmem' : s ∈ db'.sources := hsmem
    obtain ⟨db2, hens, hlen2⟩ :=
      ensure_present_ok db' r.id r.feedId r.publishedAt s hsmem'
        (by rw [hsa, ← harow]; rfl) (by rw [hsf, ← harow]; rfl)
    have hstep := mergeStep_newkey db' m r b hrb hkey hlook db2 hens
    have hpres := ensure_preserves db' db2 r.id r.feedId r.publishedAt hens
    have hml : mergeLoop (r :: rs) db' m =
        match mergeStep db' m r with
        | .error e => .error e
        | .ok (db'', m') => mergeLoop rs db'' m' := rfl
    have hloop : mergeLoop (r :: rs) db' m = mergeLoop rs db2 (m ++ [(b, r.id)]) := by
      simp only [hml, hstep]
    rw [hloop]
    simp only [List.map_cons, List.nodup_cons] at hnd
    refine ih db2 (m ++ [(b, r.id)]) ?_ hnd.2 ?_
      (hpres.2.2.1.trans ha) (hpres.1.trans hs) (hpres.2.1.trans hv)
      (hpres.2.2.2.1.trans hf) (hpres.2.2.2.2.trans hd) (hlen2.trans hl) ?_
    · intro r' hr'
      exact hrow r' (List.mem_cons_of_mem r hr')
    · intro p hp r' hr' b' hb'
      rcases List.mem_append.mp hp with hp1 | hp2
      · exact hm p hp1 r' (List.mem_cons_of_mem r hr') b' hb'
      · have hpe : p = (b, r.id) := by simpa using hp2
        subst hpe
        obtain ⟨a', ha'mem, ha'row⟩ := hrow r' (List.mem_cons_of_mem r hr')
        intro hbb
        have hbb' : b = b' := hbb
        have hane : a.id ≠ a'.id := by
          have h1 : (Article.toMergeRow a).id = a.id := rfl
          have h2 : (Article.toMergeRow a').id = a'.id := rfl
          rw [harow] at h1
          rw [ha'row] at h2
          rw [← h1, ← h2]
          intro he
          exact hnd.1 (he ▸ List.mem_map_of_mem (fun r => r.id) hr')
        have hane' : a ≠ a' := fun he => hane (he ▸ rfl)
        have hbase : a.baseUrl ≠ a'.baseUrl := by
          refine List.Pairwise.forall ?_ hpw hamem ha'mem hane'
          intro x y hxy
          exact hxy.symm
        have hb'eq : a'.baseUrl = some b' := by rw [← ha'row] at hb'; exact hb'
        rw [hab, hb'eq] at hbase
        exact hbase (by rw [hbb'])
    · intro a' ha'
      obtain ⟨t, htm, hta, htf⟩ := hpair a' ha'
      exact ensure_keeps_pairs db' db2 r.id r.feedId r.publishedAt hens
        a'.id a'.feedId t htm hta htf

/-- Helper: a reconciled store is a fixed point of the reconcile pass up
to table sizes: the pass succeeds and no table changes size. -/
theorem merge_noop_of_reconciled (db : DB) (h : Reconciled db) :
    ∃ db2, mergeDuplicateArticles db = .ok db2 ∧ countsOf db2 = countsOf db := by
  obtain ⟨hids, hfix, hpw, hpair⟩ := h
  have hrow : ∀ r ∈ (sortByKey (fun a : Article => a.id) db.articles).map
      Article.toMergeRow, ∃ a ∈ db.articles, Article.toMergeRow a = r := by
    intro r hr
    rcases List.mem_map.mp hr with ⟨a, haso, rfl⟩
    exact ⟨a, (mem_sortByKey _ a db.articles).mp haso, rfl⟩
  have hnd : (((sortByKey (fun a : Article => a.id) db.articles).map
      Article.toMergeRow).map (fun r => r.id)).Nodup := by
    rw [List.map_map]
    have hcomp : ((sortByKey (fun a : Article => a.id) db.articles).map
        ((fun r : MergeRow => r.id) ∘ Article.toMergeRow)) =
        (sortByKey (fun a : Article => a.id) db.articles).map
          (fun a : Article => a.id) := rfl
    rw [hcomp]
    exact ((sortByKey_perm (fun a : Article => a.id) db.articles).map
      (fun a : Article => a.id)).nodup_iff.mpr hids
  obtain ⟨db2, hml, ha, hs, hv, hf, hd, hl⟩ :=
    mergeLoop_fixpoint db hfix hids hpw
      ((sortByKey (fun a : Article => a.id) db.articles).map Article.toMergeRow)
      db [] hrow hnd (fun p hp => absurd hp (List.not_mem_nil p))
      rfl rfl rfl rfl rfl rfl hpair
  exact ⟨db2, hml, by simp [countsOf, ha, hs, hv, hl]⟩

/-- Helper: mapping a function that fixes every element is the identity. -/
theorem map_self_of_fix {α : Type} (l : List α) (f : α → α)
    (h : ∀ a ∈ l, f a = a) : l.map f = l := by
  induction l with
  | nil => rfl
  | cons a t ih =>
    rw [List.map_cons, h a (List.mem_cons_self a t),
        ih (fun x hx => h x (List.mem_cons_of_mem a hx))]

/-- Helper: after a successful `ensureArticleSource` the ensured pairing
is present. -/
theorem ensure_pair_after (db db' : DB) (aid fid : Nat) (p : Int)
    (h : ensureArticleSource db aid fid p = .ok db') :
    ∃ t ∈ db'.sources, t.articleId = aid ∧ t.feedId = fid := by
  rcases hfind : db.sources.find? (fun s => s.articleId = aid ∧ s.feedId = fid)
    with _ | s
  · unfold ensureArticleSource at h
    rw [hfind] at h
    dsimp only at h
    split at h
    · cases h
      exact ⟨⟨aid, fid, p⟩, List.mem_append_right _ (List.mem_singleton.mpr rfl),
        rfl, rfl⟩
    · cases h
  · have hsmem := List.mem_of_find?_eq_some hfind
    have hpred := List.find?_some hfind
    simp only [decide_eq_true_eq] at hpred
    exact ensure_keeps_pairs db db' aid fid p h aid fid s hsmem hpred.1 hpred.2

/-- Helper: the row's URL is all the row contributes to the recomputed
identity. -/
theorem mergeNormalized_url_congr (r1 r2 : MergeRow) (b : Str)
    (h : r1.url = r2.url) : mergeNormalized r1 b = mergeNormalized r2 b := by
  unfold mergeNormalized
  rw [h]

/-- Helper: full effect of a fresh-key scan step on articles and
sources. -/
theorem mergeStep_new_facts (db : DB) (m : List (Str × Nat)) (r : MergeRow)
    (b : Str) (hrb : r.base = some b)
    (hlook : lookupBase m (mergeNormalized r b) = none)
    (hb0 : ∀ a ∈ db.articles, a.id = r.id → a.baseUrl = some b)
    (db' : DB) (m' : List (Str × Nat))
    (hstep : mergeStep db m r = .ok (db', m')) :
    m' = m ++ [(mergeNormalized r b, r.id)] ∧
    db'.articles = db.articles.map (fun a =>
      if a.id = r.id then { a with baseUrl := some (mergeNormalized r b) }
      else a) ∧
    (∀ aid fid : Nat, (∃ s ∈ db.sources, s.articleId = aid ∧ s.feedId = fid) →
       ∃ s ∈ db'.sources, s.articleId = aid ∧ s.feedId = fid) ∧
    (∃ s ∈ db'.sources, s.articleId = r.id ∧ s.feedId = r.feedId) := by
  unfold mergeStep at hstep
  rw [hrb] at hstep
  dsimp only at hstep
  rw [hlook] at hstep
  revert hstep
  generalize hdb1 :
    (if mergeNormalized r b ≠ b then
      { db with articles := db.articles.map fun a =>
          if a.id = r.id then { a with baseUrl := some (mergeNormalized r b) }
          else a }
     else db) = db1
  have hart1 : db1.articles = db.articles.map (fun a =>
      if a.id = r.id then { a with baseUrl := some (mergeNormalized r b) }
      else a) := by
    rw [← hdb1]
    split
    · rfl
    · next hne =>
      have hnb : mergeNormalized r b = b := by
        by_contra hc
        exact hne hc
      refine (map_self_of_fix db.articles _ ?_).symm
      intro a ha
      by_cases hid : a.id = r.id
      · rw [if_pos hid, hnb, ← hb0 a ha hid]
      · rw [if_neg hid]
  have hsrc1 : db1.sources = db.sources := by
    rw [← hdb1]
    split <;> rfl
  intro hstep
  cases hE : ensureArticleSource db1 r.id r.feedId r.publishedAt with
  | error e =>
    rw [hE] at hstep
    cases hstep
  | ok db2 =>
    rw [hE] at hstep
    dsimp only at hstep
    have hd2 : db2 = db' ∧ m ++ [(mergeNormalized r b, r.id)] = m' := by
      have := hstep
      rw [Except.ok.injEq, Prod.mk.injEq] at this
      exact this
    obtain ⟨rfl, rfl⟩ := hd2
    have hpres := ensure_preserves db1 db2 r.id r.feedId r.publishedAt hE
    refine ⟨rfl, hpres.2.2.1.trans hart1, ?_, ?_⟩
    · intro aid fid ⟨s, hsm, hsa, hsf⟩
      exact ensure_keeps_pairs db1 db2 r.id r.feedId r.publishedAt hE
        aid fid s (by rw [hsrc1]; exact hsm) hsa hsf
    · exact ensure_pair_after db1 db2 r.id r.feedId r.publishedAt hE

theorem cascade_articles (db : DB) (i : Nat) :
    (deleteArticleCascade db i).articles = db.articles.filter (·.id ≠ i) := rfl

theorem cascade_sources (db : DB) (i : Nat) :
    (deleteArticleCascade db i).sources =
      db.sources.filter (·.articleId ≠ i) := rfl

/-- Helper: filtering by key then projecting is projecting then
filtering. -/
theorem map_key_filter {α : Type} (key : α → Nat) (l : List α) (i : Nat) :
    (l.filter (fun a => key a ≠ i)).map key =
      (l.map key).filter (fun j => j ≠ i) := by
  induction l with
  | nil => rfl
  | cons a t ih =>
    simp only [ne_eq, decide_not] at ih ⊢
    by_cases h : key a = i
    · simp [List.filter_cons, h, ih]
    · simp [List.filter_cons, h, ih]

/-- Helper: a key-preserving rewrite of the rows keeps the key column. -/
theorem map_key_map {α : Type} (key : α → Nat) (l : List α) (f : α → α)
    (h : ∀ a, key (f a) = key a) : (l.map f).map key = l.map key := by
  induction l with
  | nil => rfl
  | cons a t ih => simp [List.map_cons, h, ih]

/-- Helper: full effect of a duplicate-key scan step on articles and
sources. -/
theorem mergeStep_dup_facts (db : DB) (m : List (Str × Nat)) (r : MergeRow)
    (b : Str) (hrb : r.base = some b) (rep : Nat)
    (hrep : lookupBase m (mergeNormalized r b) = some rep)
    (db' : DB) (m' : List (Str × Nat))
    (hstep : mergeStep db m r = .ok (db', m')) :
    m' = m ∧
    db'.articles.map (fun a => a.id) =
      (db.articles.map (fun a => a.id)).filter (fun j => j ≠ r.id) ∧
    (∀ a ∈ db.articles, a.id ≠ r.id → a ∈ db'.articles) ∧
    (∀ aid fid : Nat, aid ≠ r.id →
      (∃ s ∈ db.sources, s.articleId = aid ∧ s.feedId = fid) →
      ∃ s ∈ db'.sources, s.articleId = aid ∧ s.feedId = fid) := by
  unfold mergeStep at hstep
  rw [hrb] at hstep
  simp only [hrep] at hstep
  revert hstep
  generalize hdb1 :
    (if mergeNormalized r b ≠ b then
      { db with articles := db.articles.map fun a =>
          if a.id = r.id then { a with baseUrl := some (mergeNormalized r b) }
          else a }
     else db) = db1
  have hart1 : db1.articles.map (fun a => a.id) =
      db.articles.map (fun a => a.id) := by
    rw [← hdb1]
    split
    · refine map_key_map (fun a => a.id) db.articles _ ?_
      intro a
      by_cases h : a.id = r.id
      · simp [h]
      · simp [h]
    · rfl
  have hmem1 : ∀ a ∈ db.articles, a.id ≠ r.id → a ∈ db1.articles := by
    rw [← hdb1]
    split
    · intro a ha hne
      have hmm := List.mem_map_of_mem (fun a : Article =>
        if a.id = r.id then { a with baseUrl := some (mergeNormalized r b) }
        else a) ha
      simp only [if_neg hne] at hmm
      exact hmm
    · intro a ha _
      exact ha
  have hsrc1 : db1.sources = db.sources := by
    rw [← hdb1]
    split <;> rfl
  intro hstep
  cases hE : ensureArticleSource db1 rep r.feedId r.publishedAt with
  | error e =>
    rw [hE] at hstep
    cases hstep
  | ok db2 =>
    rw [hE] at hstep
    have hpres := ensure_preserves db1 db2 rep r.feedId r.publishedAt hE
    cases hstep
    refine ⟨rfl, ?_, ?_, ?_⟩
    · simp only [cascade_articles, apply_ite DB.articles, ite_self]
      have h1 := map_key_filter (fun a : Article => a.id) db2.articles r.id
      rw [h1, hpres.2.2.1, hart1]
    · intro a ha hne
      simp only [cascade_articles, apply_ite DB.articles, ite_self]
      rw [List.mem_filter]
      refine ⟨?_, by simpa using hne⟩
      rw [hpres.2.2.1]
      exact hmem1 a ha hne
    · intro aid fid hne ⟨s, hs, hsa, hsf⟩
      obtain ⟨t, htm, hta, htf⟩ :=
        ensure_keeps_pairs db1 db2 rep r.feedId r.publishedAt hE aid fid s
          (by rw [hsrc1]; exact hs) hsa hsf
      simp only [cascade_sources, apply_ite DB.sources, ite_self]
      refine ⟨t, List.mem_filter.mpr ⟨htm, ?_⟩, hta, htf⟩
      simp [hta, hne]

/-- Helper: the scan loop, fed rows that mirror live trim-stable
articles with distinct ids, an accumulator whose entries describe
already-reconciled live articles with distinct keys, and full coverage,
ends in a reconciled store. -/
theorem mergeLoop_reconciles :
    ∀ (rows : List MergeRow) (db : DB) (m : List (Str × Nat)) (db2 : DB),
    (db.articles.map (fun a => a.id)).Nodup →
    (∀ r ∈ rows, ∃ a ∈ db.articles, Article.toMergeRow a = r ∧
        goTrimSpace a.url = a.url ∧
        ∃ b, a.baseUrl = some b ∧ goTrimSpace b = b) →
    (rows.map (fun r => r.id)).Nodup →
    (∀ p ∈ m, ∀ r ∈ rows, p.2 ≠ r.id) →
    (∀ p ∈ m, ∃ a ∈ db.articles, a.id = p.2 ∧ a.baseUrl = some p.1 ∧
        mergeNormalized (Article.toMergeRow a) p.1 = p.1 ∧
        ∃ s ∈ db.sources, s.articleId = a.id ∧ s.feedId = a.feedId) →
    (m.map (fun p => p.1)).Nodup →
    (∀ a ∈ db.articles, (∃ p ∈ m, p.2 = a.id) ∨ (∃ r ∈ rows, r.id = a.id)) →
    mergeLoop rows db m = .ok db2 → Reconciled db2 := by
  intro rows
  induction rows with
  | nil =>
    intro db m db2 hA1 _ _ _ hM1 hM2 hC hloop
    have hdb : db = db2 := by
      have h2 : (Except.ok db : Except Err DB) = .ok db2 := hloop
      cases h2
      rfl
    subst hdb
    have hkeyed : ∀ a ∈ db.articles, ∃ p ∈ m, p.2 = a.id ∧
        a.baseUrl = some p.1 ∧
        mergeNormalized (Article.toMergeRow a) p.1 = p.1 ∧
        ∃ s ∈ db.sources, s.articleId = a.id ∧ s.feedId = a.feedId := by
      intro a ha
      rcases hC a ha with ⟨p, hp, hpid⟩ | ⟨r, hr, _⟩
      · obtain ⟨a0, ha0, ha0id, ha0b, ha0fix, hsrc⟩ := hM1 p hp
        have hae : a0 = a :=
          nodup_key_eq (fun a => a.id) db.articles hA1 ha0 ha
            (by show a0.id = a.id; rw [ha0id, hpid])
        exact ⟨p, hp, hpid, hae ▸ ha0b, hae ▸ ha0fix, hae ▸ hsrc⟩
      · exact absurd hr (List.not_mem_nil r)
    refine ⟨hA1, ?_, ?_, ?_⟩
    · intro a ha
      obtain ⟨p, _, _, hb, hfix, _⟩ := hkeyed a ha
      exact ⟨p.1, hb, hfix⟩
    · refine List.Nodup.pairwise_of_forall_ne (List.Nodup.of_map _ hA1) ?_
      intro a ha a' ha' hne
      obtain ⟨p, hp, hpid, hb, _, _⟩ := hkeyed a ha
      obtain ⟨p', hp', hpid', hb', _, _⟩ := hkeyed a' ha'
      intro hbe
      have hk : p.1 = p'.1 := by
        rw [hb, hb'] at hbe
        exact Option.some.inj hbe
      have hpp : p = p' := nodup_key_eq (fun p => p.1) m hM2 hp hp' hk
      apply hne
      refine nodup_key_eq (fun a => a.id) db.articles hA1 ha ha' ?_
      show a.id = a'.id
      rw [← hpid, ← hpid', hpp]
    · intro a ha
      obtain ⟨p, _, _, _, _, hsrc⟩ := hkeyed a ha
      exact hsrc
  | cons r rs ih =>
    intro db m db2 hA1 hR1 hR2 hR3 hM1 hM2 hC hloop
    obtain ⟨a, hamem, harow, hu, b, hab, hbst⟩ := hR1 r (List.mem_cons_self r rs)
    have hrb : r.base = some b := by rw [← harow]; exact hab
    have hru : goTrimSpace r.url = r.url := by rw [← harow]; exact hu
    have haid : a.id = r.id := by rw [← harow]; rfl
    have hafid : a.feedId = r.feedId := by rw [← harow]; rfl
    have hml : mergeLoop (r :: rs) db m =
        match mergeStep db m r with
        | .error e => .error e
        | .ok (db'', m'') => mergeLoop rs db'' m'' := rfl
    rw [hml] at hloop
    simp only [List.map_cons, List.nodup_cons] at hR2
    cases hstep : mergeStep db m r with
    | error e =>
      rw [hstep] at hloop
      cases hloop
    | ok pr =>
      obtain ⟨db', m'⟩ := pr
      rw [hstep] at hloop
      dsimp only at hloop
      cases hlk : lookupBase m (mergeNormalized r b) with
      | some rep =>
        obtain ⟨hm', hidseq, hmempres, hsrcpres⟩ :=
          mergeStep_dup_facts db m r b hrb rep hlk db' m' hstep
        rw [hm'] at hloop
        refine ih db' m db2 ?_ ?_ hR2.2 ?_ ?_ hM2 ?_ hloop
        · rw [hidseq]
          exact List.Nodup.filter _ hA1
        · intro r' hr'
          obtain ⟨a', ha', ha'row, hu', b', hab', hb'st⟩ :=
            hR1 r' (List.mem_cons_of_mem r hr')
          have ha'id : a'.id = r'.id := by rw [← ha'row]; rfl
          have hne : a'.id ≠ r.id := by
            rw [ha'id]
            intro he
            apply hR2.1
            rw [← he]
            exact List.mem_map_of_mem (fun r => r.id) hr'
          exact ⟨a', hmempres a' ha' hne, ha'row, hu', b', hab', hb'st⟩
        · intro p hp r' hr'
          exact hR3 p hp r' (List.mem_cons_of_mem r hr')
        · intro p hp
          obtain ⟨a0, ha0, ha0id, ha0b, ha0fix, s, hs, hsa, hsf⟩ := hM1 p hp
          have hne : a0.id ≠ r.id := by
            rw [ha0id]
            exact hR3 p hp r (List.mem_cons_self r rs)
          refine ⟨a0, hmempres a0 ha0 hne, ha0id, ha0b, ha0fix, ?_⟩
          exact hsrcpres a0.id a0.feedId hne ⟨s, hs, hsa, hsf⟩
        · intro a' ha'
          have hid' : a'.id ∈ db'.articles.map (fun a => a.id) :=
            List.mem_map_of_mem _ ha'
          rw [hidseq] at hid'
          have hid2 := List.mem_filter.mp hid'
          have hne : a'.id ≠ r.id := by simpa using hid2.2
          obtain ⟨a'', ha'', ha''id⟩ := List.mem_map.mp hid2.1
          rcases hC a'' ha'' with ⟨p, hp, hpid⟩ | ⟨r', hr', hrid⟩
          · exact Or.inl ⟨p, hp, by rw [hpid, ha''id]⟩
          · rcases List.mem_cons.mp hr' with rfl | hr''
            · exact absurd (hrid.trans ha''id).symm hne
            · exact Or.inr ⟨r', hr'', hrid.trans ha''id⟩
      | none =>
        have hb0 : ∀ a' ∈ db.articles, a'.id = r.id → a'.baseUrl = some b := by
          intro a' ha' hid
          have hae : a' = a :=
            nodup_key_eq (fun a => a.id) db.articles hA1 ha' hamem
              (by show a'.id = a.id; rw [hid]; exact haid.symm)
          rw [hae]
          exact hab
        obtain ⟨hm', harts, hsrcpres, hnewpair⟩ :=
          mergeStep_new_facts db m r b hrb hlk hb0 db' m' hstep
        subst hm'
        refine ih db' (m ++ [(mergeNormalized r b, r.id)]) db2
          ?_ ?_ hR2.2 ?_ ?_ ?_ ?_ hloop
        · rw [harts, map_key_map (fun a => a.id) db.articles _ ?_]
          · exact hA1
          · intro x
            by_cases h : x.id = r.id
            · simp [h]
            · simp [h]
        · intro r' hr'
          obtain ⟨a', ha', ha'row, hu', b', hab', hb'st⟩ :=
            hR1 r' (List.mem_cons_of_mem r hr')
          have ha'id : a'.id = r'.id := by rw [← ha'row]; rfl
          have hne : a'.id ≠ r.id := by
            rw [ha'id]
            intro he
            apply hR2.1
            rw [← he]
            exact List.mem_map_of_mem (fun r => r.id) hr'
          refine ⟨a', ?_, ha'row, hu', b', hab', hb'st⟩
          rw [harts]
          have hmm := List.mem_map_of_mem (fun a : Article =>
            if a.id = r.id then { a with baseUrl := some (mergeNormalized r b) }
            else a) ha'
          simp only [if_neg hne] at hmm
          exact hmm
        · intro p hp r' hr'
          rcases List.mem_append.mp hp with hp1 | hp2
          · exact hR3 p hp1 r' (List.mem_cons_of_mem r hr')
          · have hpe : p = (mergeNormalized r b, r.id) := by simpa using hp2
            rw [hpe]
            intro he
            have he' : r.id = r'.id := he
            apply hR2.1
            rw [he']
            exact List.mem_map_of_mem (fun r => r.id) hr'
        · intro p hp
          rcases List.mem_append.mp hp with hp1 | hp2
          · obtain ⟨a0, ha0, ha0id, ha0b, ha0fix, s, hs, hsa, hsf⟩ := hM1 p hp1
            have hne : a0.id ≠ r.id := by
              rw [ha0id]
              exact hR3 p hp1 r (List.mem_cons_self r rs)
            refine ⟨a0, ?_, ha0id, ha0b, ha0fix, ?_⟩
            · rw [harts]
              have hmm := List.mem_map_of_mem (fun a : Article =>
                if a.id = r.id then
                  { a with baseUrl := some (mergeNormalized r b) }
                else a) ha0
              simp only [if_neg hne] at hmm
              exact hmm
            · exact hsrcpres a0.id a0.feedId ⟨s, hs, hsa, hsf⟩
          · have hpe : p = (mergeNormalized r b, r.id) := by simpa using hp2
            subst hpe
            refine ⟨{ a with baseUrl := some (mergeNormalized r b) },
              ?_, haid, rfl, ?_, ?_⟩
            · rw [harts]
              have hmm := List.mem_map_of_mem (fun a : Article =>
                if a.id = r.id then
                  { a with baseUrl := some (mergeNormalized r b) }
                else a) hamem
              simp only [if_pos haid] at hmm
              exact hmm
            · have hueq : (Article.toMergeRow
                  { a with baseUrl := some (mergeNormalized r b) }).url =
                  r.url := by rw [← harow]; rfl
              rw [mergeNormalized_url_congr _ r _ hueq]
              exact mergeNormalized_fix r b hru hbst
            · obtain ⟨s, hs, hsa, hsf⟩ := hnewpair
              refine ⟨s, hs, ?_, ?_⟩
              · rw [hsa]
                exact haid.symm
              · rw [hsf]
                exact hafid.symm
        · rw [List.map_append, List.nodup_append]
          refine ⟨hM2, by simp, ?_⟩
          intro k hk
          obtain ⟨p, hp, hpk⟩ := List.mem_map.mp hk
          have hnk := lookupBase_none m (mergeNormalized r b) hlk p hp
          simp only [List.map_cons, List.map_nil, List.mem_singleton]
          intro hke
          exact hnk (by rw [hpk, hke])
        · intro a' ha'
          rw [harts] at ha'
          obtain ⟨a'', ha'', hfa⟩ := List.mem_map.mp ha'
          have hid'' : a'.id = a''.id := by
            rw [← hfa]
            by_cases h : a''.id = r.id
            · simp [h]
            · simp [h]
          rcases hC a'' ha'' with ⟨p, hp, hpid⟩ | ⟨r', hr', hrid⟩
          · exact Or.inl ⟨p, List.mem_append_left _ hp, by rw [hpid, ← hid'']⟩
          · rcases List.mem_cons.mp hr' with heq | hr''
            · refine Or.inl ⟨(mergeNormalized r b, r.id),
                List.mem_append_right _ (List.mem_singleton.mpr rfl), ?_⟩
              show r.id = a'.id
              rw [← heq]
              exact hrid.trans hid''.symm
            · exact Or.inr ⟨r', hr'', hrid.trans hid''.symm⟩

/-- Helper: one reconcile pass over a store with distinct ids and
whitespace-free URLs and stored identities leaves a reconciled store. -/
theorem merge_reconciles (db db1 : DB)
    (hids : (db.articles.map (fun a => a.id)).Nodup)
    (hstable : ∀ a ∈ db.articles, goTrimSpace a.url = a.url ∧
        a.baseUrl.map goTrimSpace = a.baseUrl ∧ a.baseUrl ≠ none)
    (h : mergeDuplicateArticles db = .ok db1) : Reconciled db1 := by
  refine mergeLoop_reconciles
    ((sortByKey (fun a : Article => a.id) db.articles).map Article.toMergeRow)
    db [] db1 hids ?_ ?_ (fun p hp => absurd hp (List.not_mem_nil p))
    (fun p hp => absurd hp (List.not_mem_nil p)) (by simp) ?_ h
  · intro r hr
    rcases List.mem_map.mp hr with ⟨a, haso, rfl⟩
    have ha := (mem_sortByKey _ a db.articles).mp haso
    obtain ⟨hu, hbm, hbn⟩ := hstable a ha
    obtain ⟨b, hb⟩ := Option.ne_none_iff_exists'.mp hbn
    refine ⟨a, ha, rfl, hu, b, hb, ?_⟩
    rw [hb] at hbm
    simpa using hbm
  · rw [List.map_map]
    have hcomp : ((sortByKey (fun a : Article => a.id) db.articles).map
        ((fun r : MergeRow => r.id) ∘ Article.toMergeRow)) =
        (sortByKey (fun a : Article => a.id) db.articles).map
          (fun a : Article => a.id) := rfl
    rw [hcomp]
    exact ((sortByKey_perm (fun a : Article => a.id) db.articles).map
      (fun a : Article => a.id)).nodup_iff.mpr hids
  · intro a ha
    exact Or.inr ⟨Article.toMergeRow a,
      List.mem_map_of_mem _ ((mem_sortByKey _ a db.articles).mpr ha), rfl⟩

/-- C2, amended: reconciliation is idempotent on the stores it actually
meets — distinct primary-key ids, URLs and stored identities free of
leading/trailing whitespace, every stored identity present.  After one
successful `MergeDuplicateArticles` pass, a second pass succeeds and
leaves the number of articles, article_sources rows, summaries and saved
bookmarks unchanged.  (Unconditionally the property is false: see the
counterexample, where a whitespace-only URL makes the recomputed
identity oscillate and the second pass keeps merging.) -/
theorem c2_idem_amended (db db1 : DB)
    (hids : (db.articles.map (fun a => a.id)).Nodup)
    (hstable : ∀ a ∈ db.articles, goTrimSpace a.url = a.url ∧
        a.baseUrl.map goTrimSpace = a.baseUrl ∧ a.baseUrl ≠ none)
    (h1 : mergeDuplicateArticles db = .ok db1) :
    ∃ db2, mergeDuplicateArticles db1 = .ok db2 ∧
      countsOf db2 = countsOf db1 :=
  merge_noop_of_reconciled db1 (merge_reconciles db db1 hids hstable h1)

/-- C2 witness: the two-duplicate store `c2stable` satisfies every
hypothesis, one pass yields `c2merged`, and the second pass preserves
all four table sizes. -/
theorem c2_idem_amended_witness :
    (c2stable.articles.map (fun a => a.id)).Nodup ∧
    (∀ a ∈ c2stable.articles, goTrimSpace a.url = a.url ∧
        a.baseUrl.map goTrimSpace = a.baseUrl ∧ a.baseUrl ≠ none) ∧
    mergeDuplicateArticles c2stable = .ok c2merged ∧
    (∃ db2, mergeDuplicateArticles c2merged = .ok db2 ∧
      countsOf db2 = countsOf c2merged) :=
  ⟨by decide, by decide, by decide,
   c2_idem_amended c2stable c2merged (by decide) (by decide) (by decide)⟩

/-- Helper: the scan loop alone (no whitespace hypotheses) leaves
pairwise-distinct stored identities: every surviving article's identity
is its accumulator key, and keys never repeat. -/
theorem mergeLoop_distinct :
    ∀ (rows : List MergeRow) (db : DB) (m : List (Str × Nat)) (db2 : DB),
    (db.articles.map (fun a => a.id)).Nodup →
    (∀ r ∈ rows, ∃ a ∈ db.articles, Article.toMergeRow a = r) →
    (rows.map (fun r => r.id)).Nodup →
    (∀ p ∈ m, ∀ r ∈ rows, p.2 ≠ r.id) →
    (∀ p ∈ m, ∃ a ∈ db.articles, a.id = p.2 ∧ a.baseUrl = some p.1) →
    (m.map (fun p => p.1)).Nodup →
    (∀ a ∈ db.articles, (∃ p ∈ m, p.2 = a.id) ∨ (∃ r ∈ rows, r.id = a.id)) →
    mergeLoop rows db m = .ok db2 →
    db2.articles.Pairwise (fun x y => x.baseUrl ≠ y.baseUrl) := by
  intro rows
  induction rows with
  | nil =>
    intro db m db2 hA1 _ _ _ hM1 hM2 hC hloop
    have hdb : db = db2 := by
      have h2 : (Except.ok db : Except Err DB) = .ok db2 := hloop
      cases h2
      rfl
    subst hdb
    have hkeyed : ∀ a ∈ db.articles, ∃ p ∈ m, p.2 = a.id ∧
        a.baseUrl = some p.1 := by
      intro a ha
      rcases hC a ha with ⟨p, hp, hpid⟩ | ⟨r, hr, _⟩
      · obtain ⟨a0, ha0, ha0id, ha0b⟩ := hM1 p hp
        have hae : a0 = a :=
          nodup_key_eq (fun a => a.id) db.articles hA1 ha0 ha
            (by show a0.id = a.id; rw [ha0id, hpid])
        exact ⟨p, hp, hpid, hae ▸ ha0b⟩
      · exact absurd hr (List.not_mem_nil r)
    refine List.Nodup.pairwise_of_forall_ne (List.Nodup.of_map _ hA1) ?_
    intro a ha a' ha' hne
    obtain ⟨p, hp, hpid, hb⟩ := hkeyed a ha
    obtain ⟨p', hp', hpid', hb'⟩ := hkeyed a' ha'
    intro hbe
    have hk : p.1 = p'.1 := by
      rw [hb, hb'] at hbe
      exact Option.some.inj hbe
    have hpp : p = p' := nodup_key_eq (fun p => p.1) m hM2 hp hp' hk
    apply hne
    refine nodup_key_eq (fun a => a.id) db.articles hA1 ha ha' ?_
    show a.id = a'.id
    rw [← hpid, ← hpid', hpp]
  | cons r rs ih =>
    intro db m db2 hA1 hR1 hR2 hR3 hM1 hM2 hC hloop
    obtain ⟨a, hamem, harow⟩ := hR1 r (List.mem_cons_self r rs)
    have haid : a.id = r.id := by rw [← harow]; rfl
    have hml : mergeLoop (r :: rs) db m =
        match mergeStep db m r with
        | .error e => .error e
        | .ok (db'', m'') => mergeLoop rs db'' m'' := rfl
    rw [hml] at hloop
    simp only [List.map_cons, List.nodup_cons] at hR2
    cases hstep : mergeStep db m r with
    | error e =>
      rw [hstep] at hloop
      cases hloop
    | ok pr =>
      obtain ⟨db', m'⟩ := pr
      rw [hstep] at hloop
      dsimp only at hloop
      cases hbase : r.base with
      | none =>
        exfalso
        unfold mergeStep at hstep
        rw [hbase] at hstep
        cases hstep
      | some b =>
      have hab : a.baseUrl = some b := by
        rw [← harow] at hbase
        exact hbase
      cases hlk : lookupBase m (mergeNormalized r b) with
      | some rep =>
        obtain ⟨hm', hidseq, hmempres, _⟩ :=
          mergeStep_dup_facts db m r b hbase rep hlk db' m' hstep
        rw [hm'] at hloop
        refine ih db' m db2 ?_ ?_ hR2.2 ?_ ?_ hM2 ?_ hloop
        · rw [hidseq]
          exact List.Nodup.filter _ hA1
        · intro r' hr'
          obtain ⟨a', ha', ha'row⟩ := hR1 r' (List.mem_cons_of_mem r hr')
          have ha'id : a'.id = r'.id := by rw [← ha'row]; rfl
          have hne : a'.id ≠ r.id := by
            rw [ha'id]
            intro he
            apply hR2.1
            rw [← he]
            exact List.mem_map_of_mem (fun r => r.id) hr'
          exact ⟨a', hmempres a' ha' hne, ha'row⟩
        · intro p hp r' hr'
          exact hR3 p hp r' (List.mem_cons_of_mem r hr')
        · intro p hp
          obtain ⟨a0, ha0, ha0id, ha0b⟩ := hM1 p hp
          have hne : a0.id ≠ r.id := by
            rw [ha0id]
            exact hR3 p hp r (List.mem_cons_self r rs)
          exact ⟨a0, hmempres a0 ha0 hne, ha0id, ha0b⟩
        · intro a' ha'
          have hid' : a'.id ∈ db'.articles.map (fun a => a.id) :=
            List.mem_map_of_mem _ ha'
          rw [hidseq] at hid'
          have hid2 := List.mem_filter.mp hid'
          have hne : a'.id ≠ r.id := by simpa using hid2.2
          obtain ⟨a'', ha'', ha''id⟩ := List.mem_map.mp hid2.1
          rcases hC a'' ha'' with ⟨p, hp, hpid⟩ | ⟨r', hr', hrid⟩
          · exact Or.inl ⟨p, hp, by rw [hpid, ha''id]⟩
          · rcases List.mem_cons.mp hr' with rfl | hr''
            · exact absurd (hrid.trans ha''id).symm hne
            · exact Or.inr ⟨r', hr'', hrid.trans ha''id⟩
      | none =>
        have hb0 : ∀ a' ∈ db.articles, a'.id = r.id → a'.baseUrl = some b := by
          intro a' ha' hid
          have hae : a' = a :=
            nodup_key_eq (fun a => a.id) db.articles hA1 ha' hamem
              (by show a'.id = a.id; rw [hid]; exact haid.symm)
          rw [hae]
          exact hab
        obtain ⟨hm', harts, _, _⟩ :=
          mergeStep_new_facts db m r b hbase hlk hb0 db' m' hstep
        subst hm'
        refine ih db' (m ++ [(mergeNormalized r b, r.id)]) db2
          ?_ ?_ hR2.2 ?_ ?_ ?_ ?_ hloop
        · rw [harts, map_key_map (fun a => a.id) db.articles _ ?_]
          · exact hA1
          · intro x
            by_cases h : x.id = r.id
            · simp [h]
            · simp [h]
        · intro r' hr'
          obtain ⟨a', ha', ha'row⟩ := hR1 r' (List.mem_cons_of_mem r hr')
          have ha'id : a'.id = r'.id := by rw [← ha'row]; rfl
          have hne : a'.id ≠ r.id := by
            rw [ha'id]
            intro he
            apply hR2.1
            rw [← he]
            exact List.mem_map_of_mem (fun r => r.id) hr'
          refine ⟨a', ?_, ha'row⟩
          rw [harts]
          have hmm := List.mem_map_of_mem (fun a : Article =>
            if a.id = r.id then { a with baseUrl := some (mergeNormalized r b) }
            else a) ha'
          simp only [if_neg hne] at hmm
          exact hmm
        · intro p hp r' hr'
          rcases List.mem_append.mp hp with hp1 | hp2
          · exact hR3 p hp1 r' (List.mem_cons_of_mem r hr')
          · have hpe : p = (mergeNormalized r b, r.id) := by simpa using hp2
            rw [hpe]
            intro he
            have he' : r.id = r'.id := he
            apply hR2.1
            rw [he']
            exact List.mem_map_of_mem (fun r => r.id) hr'
        · intro p hp
          rcases List.mem_append.mp hp with hp1 | hp2
          · obtain ⟨a0, ha0, ha0id, ha0b⟩ := hM1 p hp1
            have hne : a0.id ≠ r.id := by
              rw [ha0id]
              exact hR3 p hp1 r (List.mem_cons_self r rs)
            refine ⟨a0, ?_, ha0id, ha0b⟩
            rw [harts]
            have hmm := List.mem_map_of_mem (fun a : Article =>
              if a.id = r.id then
                { a with baseUrl := some (mergeNormalized r b) }
              else a) ha0
            simp only [if_neg hne] at hmm
            exact hmm
          · have hpe : p = (mergeNormalized r b, r.id) := by simpa using hp2
            subst hpe
            refine ⟨{ a with baseUrl := some (mergeNormalized r b) },
              ?_, haid, rfl⟩
            rw [harts]
            have hmm := List.mem_map_of_mem (fun a : Article =>
              if a.id = r.id then
                { a with baseUrl := some (mergeNormalized r b) }
              else a) hamem
            simp only [if_pos haid] at hmm
            exact hmm
        · rw [List.map_append, List.nodup_append]
          refine ⟨hM2, by simp, ?_⟩
          intro k hk
          obtain ⟨p, hp, hpk⟩ := List.mem_map.mp hk
          have hnk := lookupBase_none m (mergeNormalized r b) hlk p hp
          simp only [List.map_cons, List.map_nil, List.mem_singleton]
          intro hke
          exact hnk (by rw [hpk, hke])
        · intro a' ha'
          rw [harts] at ha'
          obtain ⟨a'', ha'', hfa⟩ := List.mem_map.mp ha'
          have hid'' : a'.id = a''.id := by
            rw [← hfa]
            by_cases h : a''.id = r.id
            · simp [h]
            · simp [h]
          rcases hC a'' ha'' with ⟨p, hp, hpid⟩ | ⟨r', hr', hrid⟩
          · exact Or.inl ⟨p, List.mem_append_left _ hp, by rw [hpid, ← hid'']⟩
          · rcases List.mem_cons.mp hr' with heq | hr''
            · refine Or.inl ⟨(mergeNormalized r b, r.id),
                List.mem_append_right _ (List.mem_singleton.mpr rfl), ?_⟩
              show r.id = a'.id
              rw [← heq]
              exact hrid.trans hid''.symm
            · exact Or.inr ⟨r', hr'', hrid.trans hid''.symm⟩

/-- Helper: a successful reconcile pass on a store with distinct ids
leaves any two live rows with different stored identities. -/
theorem merge_distinct (db db1 : DB)
    (hids : (db.articles.map (fun a => a.id)).Nodup)
    (h : mergeDuplicateArticles db = .ok db1) :
    db1.articles.Pairwise (fun x y => x.baseUrl ≠ y.baseUrl) := by
  refine mergeLoop_distinct
    ((sortByKey (fun a : Article => a.id) db.articles).map Article.toMergeRow)
    db [] db1 hids ?_ ?_ (fun p hp => absurd hp (List.not_mem_nil p))
    (fun p hp => absurd hp (List.not_mem_nil p)) (by simp) ?_ h
  · intro r hr
    rcases List.mem_map.mp hr with ⟨a, haso, rfl⟩
    exact ⟨a, (mem_sortByKey _ a db.articles).mp haso, rfl⟩
  · rw [List.map_map]
    have hcomp : ((sortByKey (fun a : Article => a.id) db.articles).map
        ((fun r : MergeRow => r.id) ∘ Article.toMergeRow)) =
        (sortByKey (fun a : Article => a.id) db.articles).map
          (fun a : Article => a.id) := rfl
    rw [hcomp]
    exact ((sortByKey_perm (fun a : Article => a.id) db.articles).map
      (fun a : Article => a.id)).nodup_iff.mpr hids
  · intro a ha
    exact Or.inr ⟨Article.toMergeRow a,
      List.mem_map_of_mem _ ((mem_sortByKey _ a db.articles).mpr ha), rfl⟩

/-- Helper: a successful row insert appends the article under the next
rowid. -/
theorem insertArticleRow_ok (db : DB) (a : Article) (id : Nat) (db1 : DB)
    (h : insertArticleRow db a = .ok (id, db1)) :
    db1.articles = db.articles ++ [{ a with id := db.nextArticleId }] := by
  unfold insertArticleRow at h
  split at h
  · cases h
  · dsimp only at h
    cases h
    rfl

/-- Helper: the ingest loop preserves the distinct-nonblank-identity
invariant on stores whose live ids are nonzero. -/
theorem insertLoop_distinct (feed : Feed) (now : Int) :
    ∀ (batch : List Article) (seen : List Str) (added : List Article)
      (db : DB) (res : List Article × DB),
    (∀ a ∈ db.articles, a.id ≠ 0) → DistinctIdent db →
    insertArticlesLoop feed now batch seen added db = .ok res →
    DistinctIdent res.2 := by
  intro batch
  induction batch with
  | nil =>
    intro seen added db res hpos hdist h
    have h2 : (Except.ok (added, db) : Except Err (List Article × DB)) =
      .ok res := h
    cases h2
    exact hdist
  | cons a0 rest ih =>
    intro seen added db res hpos hdist h
    simp only [insertArticlesLoop] at h
    by_cases hseen : ((if a0.guid = [] then a0.url else a0.guid) ∈ seen)
    · rw [if_pos hseen] at h
      exact ih seen added db res hpos hdist h
    · rw [if_neg hseen] at h
      by_cases hex : findArticleIDByBaseURL db
          (if baseURL a0.url = [] then a0.url else baseURL a0.url) ≠ 0
      · rw [if_pos hex] at h
        split at h
        · cases h
        · next db' heq =>
          refine ih _ _ _ _ ?_ ?_ h
          · intro x hx
            refine hpos x ?_
            rw [← (ensure_preserves _ _ _ _ _ heq).2.2.1]
            exact hx
          · show db'.articles.Pairwise identBlankPair
            rw [(ensure_preserves _ _ _ _ _ heq).2.2.1]
            exact hdist
      · rw [if_neg hex] at h
        have hex0 : findArticleIDByBaseURL db
            (if baseURL a0.url = [] then a0.url else baseURL a0.url) = 0 :=
          not_not.mp hex
        split at h
        · cases h
        · next id db1 hI =>
          split at h
          · cases h
          · next db2 hE =>
            have harts1 := insertArticleRow_ok db _ id db1 hI
            refine ih _ _ _ _ ?_ ?_ h
            · intro x hx
              rw [(ensure_preserves _ _ _ _ _ hE).2.2.1, harts1] at hx
              rcases List.mem_append.mp hx with hx1 | hx2
              · exact hpos x hx1
              · have hxe := List.mem_singleton.mp hx2
                rw [hxe]
                show nextId (db.articles.map (·.id)) ≠ 0
                unfold nextId
                exact Nat.succ_ne_zero _
            · show db2.articles.Pairwise identBlankPair
              rw [(ensure_preserves _ _ _ _ _ hE).2.2.1, harts1]
              rw [List.pairwise_append]
              refine ⟨hdist, List.pairwise_singleton _ _, ?_⟩
              intro x hx y hy
              have hye := List.mem_singleton.mp hy
              rw [hye]
              intro hxy
              have hxb : x.baseUrl =
                  some (if baseURL a0.url = [] then a0.url
                        else baseURL a0.url) := hxy
              by_cases hblank : goTrimSpace
                  (if baseURL a0.url = [] then a0.url
                   else baseURL a0.url) = []
              · right
                rw [hxb]
                simp [hblank]
              · exfalso
                unfold findArticleIDByBaseURL at hex0
                rw [if_neg hblank] at hex0
                cases hfind : (sortByKey (fun a : Article => a.id)
                    db.articles).find? (fun a => a.baseUrl =
                      some (if baseURL a0.url = [] then a0.url
                            else baseURL a0.url)) with
                | none =>
                  have hno := List.find?_eq_none.mp hfind x
                    ((mem_sortByKey _ x db.articles).mpr hx)
                  simp only [decide_eq_true_eq] at hno
                  exact hno hxb
                | some afound =>
                  rw [hfind] at hex0
                  dsimp only at hex0
                  refine hpos afound ?_ hex0
                  exact (mem_sortByKey _ afound db.articles).mp
                    (List.mem_of_find?_eq_some hfind)

/-- Helper: `InsertArticles` preserves distinct nonblank identities. -/
theorem insertArticles_distinct (db : DB) (feed : Feed)
    (incoming : List Article) (now : Int) (res : List Article × DB)
    (hpos : ∀ a ∈ db.articles, a.id ≠ 0) (hdist : DistinctIdent db)
    (h : insertArticles db feed incoming now = .ok res) :
    DistinctIdent res.2 := by
  unfold insertArticles at h
  dsimp only at h
  split at h
  · cases h
  · next added db' hL =>
    cases h
    exact insertLoop_distinct feed now incoming _ [] db (added, db') hpos hdist hL

/-- C1, amended: the no-duplicate-identity invariant holds after
reconcile in full — on any store with distinct primary-key ids, a
successful `MergeDuplicateArticles` leaves any two live rows with
different stored identities, blank ones included — but after ingest only
up to blank identities: `InsertArticles` preserves the invariant that two
live rows share a stored identity only when it is absent or
whitespace-blank, because `findArticleIDByBaseURL` skips blank lookups
(see the counterexample: two ingests of empty-URL articles leave two live
rows with the same blank identity). -/
theorem c1_dedup_amended :
    (∀ db db1 : DB, (db.articles.map (fun a => a.id)).Nodup →
       mergeDuplicateArticles db = .ok db1 →
       db1.articles.Pairwise (fun x y => x.baseUrl ≠ y.baseUrl)) ∧
    (∀ (db : DB) (feed : Feed) (incoming : List Article) (now : Int)
       (res : List Article × DB),
       (∀ a ∈ db.articles, a.id ≠ 0) → DistinctIdent db →
       insertArticles db feed incoming now = .ok res →
       DistinctIdent res.2) :=
  ⟨fun db db1 hids h => merge_distinct db db1 hids h,
   fun db feed incoming now res hpos hdist h =>
     insertArticles_distinct db feed incoming now res hpos hdist h⟩

/-- C1 witness: the duplicate store `c2stable` reconciles to pairwise
distinct identities, and a two-article ingest into the empty store
satisfies the ingest half's hypotheses and conclusion. -/
theorem c1_dedup_amended_witness :
    ((c2stable.articles.map (fun a => a.id)).Nodup ∧
     mergeDuplicateArticles c2stable = .ok c2merged ∧
     c2merged.articles.Pairwise (fun x y => x.baseUrl ≠ y.baseUrl)) ∧
    ((∀ a ∈ exDB0.articles, a.id ≠ 0) ∧ DistinctIdent exDB0 ∧
     insertArticles exDB0 exFeed
       [exArt "g1" "http://x/p?1" 5, exArt "g2" "http://y/q" 6] 1000 =
       .ok c1post ∧
     DistinctIdent c1post.2) :=
  ⟨⟨by decide, by decide,
    c1_dedup_amended.1 c2stable c2merged (by decide) (by decide)⟩,
   ⟨by decide, by decide, by decide,
    c1_dedup_amended.2 exDB0 exFeed
      [exArt "g1" "http://x/p?1" 5, exArt "g2" "http://y/q" 6] 1000 c1post
      (by decide) (by decide) (by decide)⟩⟩

/-- Helper: a successful row insert does not touch `article_sources`. -/
theorem insertArticleRow_sources (db : DB) (a : Article) (id : Nat) (db1 : DB)
    (h : insertArticleRow db a = .ok (id, db1)) : db1.sources = db.sources := by
  unfold insertArticleRow at h
  split at h
  · cases h
  · dsimp only at h
    cases h
    rfl

/-- Helper: a successful row insert reports the next rowid. -/
theorem insertArticleRow_id (db : DB) (a : Article) (id : Nat) (db1 : DB)
    (h : insertArticleRow db a = .ok (id, db1)) : id = db.nextArticleId := by
  unfold insertArticleRow at h
  split at h
  · cases h
  · dsimp only at h
    cases h
    rfl

/-- Helper: `ensureArticleSource` grows the association table by at most
one row. -/
theorem ensure_sources_le (db db' : DB) (aid fid : Nat) (p : Int)
    (h : ensureArticleSource db aid fid p = .ok db') :
    db'.sources.length ≤ db.sources.length + 1 := by
  unfold ensureArticleSource at h
  split at h
  · split at h
    · cases h
      exact Nat.le_succ _
    · cases h
      show (db.sources.map _).length ≤ _
      rw [List.length_map]
      exact Nat.le_succ _
  · split at h
    · cases h
      show (db.sources ++ [_]).length ≤ _
      rw [List.length_append]
      exact Nat.le_refl _
    · cases h

/-- Helper: the ingest loop appends its newly created rows (exactly the
ones it accumulates for the caller) to the live table and adds at most
one association per batch entry. -/
theorem insertLoop_appends (feed : Feed) (now : Int) :
    ∀ (batch : List Article) (seen : List Str) (added : List Article)
      (db : DB) (res : List Article × DB),
    insertArticlesLoop feed now batch seen added db = .ok res →
    ∃ new, res.1 = added ++ new ∧ res.2.articles = db.articles ++ new ∧
      res.2.sources.length ≤ db.sources.length + batch.length := by
  intro batch
  induction batch with
  | nil =>
    intro seen added db res h
    have h2 : (Except.ok (added, db) : Except Err (List Article × DB)) =
      .ok res := h
    cases h2
    exact ⟨[], (List.append_nil added).symm, (List.append_nil _).symm,
      Nat.le_refl _⟩
  | cons a0 rest ih =>
    intro seen added db res h
    simp only [insertArticlesLoop] at h
    by_cases hseen : ((if a0.guid = [] then a0.url else a0.guid) ∈ seen)
    · rw [if_pos hseen] at h
      obtain ⟨new, h1, h2, h3⟩ := ih seen added db res h
      exact ⟨new, h1, h2, h3.trans (by simp [Nat.le_succ])⟩
    · rw [if_neg hseen] at h
      by_cases hex : findArticleIDByBaseURL db
          (if baseURL a0.url = [] then a0.url else baseURL a0.url) ≠ 0
      · rw [if_pos hex] at h
        split at h
        · cases h
        · next db' heq =>
          obtain ⟨new, h1, h2, h3⟩ := ih _ _ _ _ h
          refine ⟨new, h1, ?_, ?_⟩
          · rw [h2, (ensure_preserves _ _ _ _ _ heq).2.2.1]
          · calc res.2.sources.length ≤ db'.sources.length + rest.length := h3
              _ ≤ (db.sources.length + 1) + rest.length :=
                Nat.add_le_add_right (ensure_sources_le _ _ _ _ _ heq) _
              _ = db.sources.length + (a0 :: rest).length := by
                simp [List.length_cons]
                omega
      · rw [if_neg hex] at h
        split at h
        · cases h
        · next id db1 hI =>
          split at h
          · cases h
          · next db2 hE =>
            have hid := insertArticleRow_id db _ id db1 hI
            subst hid
            have harts1 := insertArticleRow_ok db _ _ db1 hI
            have hsrc1 := insertArticleRow_sources db _ _ db1 hI
            obtain ⟨new, h1, h2, h3⟩ := ih _ _ _ _ h
            refine ⟨{ a0 with
              id := db.nextArticleId
              feedId := feed.id
              guid := if a0.guid = [] then a0.url else a0.guid
              baseUrl := some (if baseURL a0.url = [] then a0.url
                               else baseURL a0.url)
              fetchedAt := if a0.fetchedAt = 0 then now else a0.fetchedAt
              feedTitle := feed.title } :: new, ?_, ?_, ?_⟩
            · rw [h1, List.append_assoc]
              rfl
            · rw [h2, (ensure_preserves _ _ _ _ _ hE).2.2.1, harts1,
                  List.append_assoc]
              rfl
            · calc res.2.sources.length ≤ db2.sources.length + rest.length := h3
                _ ≤ (db1.sources.length + 1) + rest.length :=
                  Nat.add_le_add_right (ensure_sources_le _ _ _ _ _ hE) _
                _ = db.sources.length + (a0 :: rest).length := by
                  rw [hsrc1]
                  simp [List.length_cons]
                  omega

/-- C3, amended: a successful ingest appends its newly created rows to
the live table, and those rows are exactly the list returned to the
caller — so new-row count equals returned count — while the association
table grows by at most one row per batch entry (GUID-skipped entries and
folds onto an already-associated (article, feed) pair contribute
nothing).  The claim's exact N−M/N counts are wrong: folding also
targets rows created earlier in the same batch, and such a fold adds no
association (see the counterexample). -/
theorem c3_fold_amended (db : DB) (feed : Feed) (incoming : List Article)
    (now : Int) (res : List Article × DB)
    (h : insertArticles db feed incoming now = .ok res) :
    res.2.articles = db.articles ++ res.1 ∧
    res.2.articles.length = db.articles.length + res.1.length ∧
    res.2.sources.length ≤ db.sources.length + incoming.length := by
  unfold insertArticles at h
  dsimp only at h
  split at h
  · cases h
  · next added db' hL =>
    cases h
    obtain ⟨new, h1, h2, h3⟩ :=
      insertLoop_appends feed now incoming _ [] db (added, db') hL
    dsimp only at h1 h2 h3
    rw [List.nil_append] at h1
    subst h1
    exact ⟨h2, by rw [h2, List.length_append], h3⟩

/-- C3 witness: the two-article ingest into the empty store creates two
rows, returns exactly those two, and adds two associations (within the
`≤ N` bound). -/
theorem c3_fold_amended_witness :
    insertArticles exDB0 exFeed
      [exArt "g1" "http://x/p?1" 5, exArt "g2" "http://y/q" 6] 1000 =
      .ok c1post ∧
    (c1post.2.articles = exDB0.articles ++ c1post.1 ∧
     c1post.2.articles.length = exDB0.articles.length + c1post.1.length ∧
     c1post.2.sources.length ≤ exDB0.sources.length +
       [exArt "g1" "http://x/p?1" 5, exArt "g2" "http://y/q" 6].length) :=
  ⟨by decide,
   c3_fold_amended exDB0 exFeed
     [exArt "g1" "http://x/p?1" 5, exArt "g2" "http://y/q" 6] 1000 c1post
     (by decide)⟩

/-- Helper: `Char.ofNat` round-trips on BMP code points. -/
theorem charOfNat_toNat (n : Nat) (h : n < 55296) :
    (Char.ofNat n).toNat = n := by
  unfold Char.ofNat
  rw [dif_pos (Or.inl h)]
  unfold Char.ofNatAux Char.toNat
  simp [UInt32.toNat, BitVec.toNat_ofNatLt]

/-- Helper: upper hex digits come from the sixteen-character table. -/
theorem hexUpper_mem (n : Nat) : hexUpper n ∈
    ['0', '1', '2', '3', '4', '5', '6', '7', '8', '9',
     'A', 'B', 'C', 'D', 'E', 'F'] := by
  rcases Nat.lt_or_ge n 16 with h | h
  · interval_cases n <;> decide
  · unfold hexUpper
    rw [List.getD_eq_default]
    · decide
    · simpa using h

/-- Helper: a character that a mode escapes, other than the escape
machinery's own output characters, never appears in an escaped string. -/
theorem not_mem_escape (t : Char) (mode : Encoding) (s : Str)
    (hse : shouldEscape t mode = true) (hp : t ≠ '%') (hpl : t ≠ '+')
    (hhex : t ∉ ['0', '1', '2', '3', '4', '5', '6', '7', '8', '9',
                 'A', 'B', 'C', 'D', 'E', 'F']) :
    t ∉ escape s mode := by
  intro hmem
  unfold escape at hmem
  rw [List.mem_flatten] at hmem
  obtain ⟨l, hl, htl⟩ := hmem
  rw [List.mem_map] at hl
  obtain ⟨c, _, hc⟩ := hl
  rw [← hc] at htl
  unfold escapeChar at htl
  split at htl
  · split at htl
    · exact hpl (List.mem_singleton.mp htl)
    · simp only [List.mem_cons, List.not_mem_nil, or_false] at htl
      rcases htl with h1 | h1 | h1
      · exact hp h1
      · exact hhex (by rw [h1]; exact hexUpper_mem _)
      · exact hhex (by rw [h1]; exact hexUpper_mem _)
  · next hnc =>
    have hce := List.mem_singleton.mp htl
    rw [← hce] at hnc
    exact hnc hse

/-- Helper: a character that a mode escapes and that is not in the
`validEncoded` allow-list cannot occur in a valid encoded string. -/
theorem not_mem_validEncoded (t : Char) (mode : Encoding) (s : Str)
    (hv : validEncoded s mode = true) (hse : shouldEscape t mode = true)
    (hal : t ∉ ['!', '$', '&', '\'', '(', ')', '*', '+', ',', ';', '=',
                ':', '@', '[', ']', '%']) :
    t ∉ s := by
  intro hmem
  unfold validEncoded at hv
  rw [List.all_eq_true] at hv
  have := hv t hmem
  rw [hse] at this
  simp only [Bool.not_true, Bool.or_false, decide_eq_true_eq] at this
  exact hal this

/-- Helper: the escaped path never contains a path-escaped character
(other than the machinery's own output). -/
theorem not_mem_escapedPath (t : Char) (u : URL)
    (hse : shouldEscape t .path = true) (hp : t ≠ '%') (hpl : t ≠ '+')
    (hstar : t ≠ '*')
    (hhex : t ∉ ['0', '1', '2', '3', '4', '5', '6', '7', '8', '9',
                 'A', 'B', 'C', 'D', 'E', 'F'])
    (hal : t ∉ ['!', '$', '&', '\'', '(', ')', '*', '+', ',', ';', '=',
                ':', '@', '[', ']', '%']) :
    t ∉ escapedPath u := by
  unfold escapedPath
  split
  · next hc =>
    exact not_mem_validEncoded t .path u.rawPath hc.2.1 hse hal
  · split
    · intro hmem
      exact hstar (List.mem_singleton.mp hmem)
    · exact not_mem_escape t .path u.path hse hp hpl hhex

/-- Helper: the serialized userinfo never contains a userPassword-escaped
character other than the delimiter machinery. -/
theorem not_mem_userinfoString (t : Char) (ui : Str × Option Str)
    (hse : shouldEscape t .userPassword = true) (hp : t ≠ '%')
    (hpl : t ≠ '+') (hcol : t ≠ ':')
    (hhex : t ∉ ['0', '1', '2', '3', '4', '5', '6', '7', '8', '9',
                 'A', 'B', 'C', 'D', 'E', 'F']) :
    t ∉ userinfoString ui := by
  obtain ⟨un, pw⟩ := ui
  cases pw with
  | none => exact not_mem_escape t .userPassword un hse hp hpl hhex
  | some pw =>
    intro hmem
    unfold userinfoString at hmem
    rcases List.mem_append.mp hmem with h1 | h1
    · exact not_mem_escape t .userPassword un hse hp hpl hhex h1
    · rcases List.mem_cons.mp h1 with h2 | h2
      · exact hcol h2
      · exact not_mem_escape t .userPassword pw hse hp hpl hhex h2

/-- Helper: both halves of a drop-cut are made of the input's
characters. -/
theorem cutDrop_subset (x : Char) (s : Str) :
    (∀ c ∈ (cutDrop x s).1, c ∈ s) ∧ (∀ c ∈ (cutDrop x s).2, c ∈ s) := by
  induction s with
  | nil => exact ⟨fun c hc => absurd hc (List.not_mem_nil c), fun c hc => absurd hc (List.not_mem_nil c)⟩
  | cons a rest ih =>
    unfold cutDrop
    split
    · exact ⟨fun c hc => absurd hc (List.not_mem_nil c),
        fun c hc => List.mem_cons_of_mem a hc⟩
    · dsimp only
      constructor
      · intro c hc
        rcases List.mem_cons.mp hc with h1 | h1
        · rw [h1]
          exact List.mem_cons_self a rest
        · exact List.mem_cons_of_mem a (ih.1 c h1)
      · intro c hc
        exact List.mem_cons_of_mem a (ih.2 c hc)

/-- Helper: the head of a drop-cut is free of the cut character. -/
theorem cutDrop_fst_not_mem (x : Char) (s : Str) : x ∉ (cutDrop x s).1 := by
  induction s with
  | nil => exact fun hc => absurd hc (List.not_mem_nil x)
  | cons a rest ih =>
    unfold cutDrop
    split
    · exact fun hc => absurd hc (List.not_mem_nil x)
    · next hne =>
      dsimp only
      intro hc
      rcases List.mem_cons.mp hc with h1 | h1
      · exact hne h1.symm
      · exact ih h1

/-- Helper: both halves of a keep-cut are made of the input's
characters. -/
theorem cutKeep_subset (x : Char) (s : Str) :
    (∀ c ∈ (cutKeep x s).1, c ∈ s) ∧ (∀ c ∈ (cutKeep x s).2, c ∈ s) := by
  induction s with
  | nil => exact ⟨fun c hc => absurd hc (List.not_mem_nil c), fun c hc => absurd hc (List.not_mem_nil c)⟩
  | cons a rest ih =>
    unfold cutKeep
    split
    · next he =>
      exact ⟨fun c hc => absurd hc (List.not_mem_nil c), fun c hc => hc⟩
    · dsimp only
      constructor
      · intro c hc
        rcases List.mem_cons.mp hc with h1 | h1
        · rw [h1]
          exact List.mem_cons_self a rest
        · exact List.mem_cons_of_mem a (ih.1 c h1)
      · intro c hc
        exact List.mem_cons_of_mem a (ih.2 c hc)

/-- Helper: every character of the remainder `getScheme` returns comes
from the input, and every scheme character (before lowercasing) is a
letter, digit, `+`, `-` or `.`. -/
theorem getSchemeAux_facts (orig : Str) :
    ∀ (walker acc : Str) (sch rest : Str),
    getSchemeAux orig walker acc = .ok (sch, rest) →
    (∀ c ∈ acc, isAlpha c = true ∨ isDigit c = true ∨
        c ∈ ['+', '-', '.']) →
    (∀ c ∈ rest, c ∈ orig ∨ c ∈ walker) ∧
    (∀ c ∈ sch, isAlpha c = true ∨ isDigit c = true ∨ c ∈ ['+', '-', '.']) := by
  intro walker
  induction walker with
  | nil =>
    intro acc sch rest h hacc
    have h2 : (Except.ok (([] : Str), orig) :
        Except Err (Str × Str)) = .ok (sch, rest) := h
    cases h2
    exact ⟨fun c hc => Or.inl hc, fun c hc => absurd hc (List.not_mem_nil c)⟩
  | cons a rest0 ih =>
    intro acc sch rest h hacc
    unfold getSchemeAux at h
    split at h
    · next ha =>
      have hres := ih (acc ++ [a]) sch rest h (by
        intro c hc
        rcases List.mem_append.mp hc with h1 | h1
        · exact hacc c h1
        · rw [List.mem_singleton.mp h1]
          exact Or.inl ha)
      exact ⟨fun c hc => (hres.1 c hc).imp id (List.mem_cons_of_mem a),
        hres.2⟩
    · split at h
      · next hd =>
        split at h
        · cases h
          exact ⟨fun c hc => Or.inl hc, fun c hc => absurd hc (List.not_mem_nil c)⟩
        · have hres := ih (acc ++ [a]) sch rest h (by
            intro c hc
            rcases List.mem_append.mp hc with h1 | h1
            · exact hacc c h1
            · rw [List.mem_singleton.mp h1]
              rcases hd with h2 | h2 | h2 | h2
              · exact Or.inr (Or.inl h2)
              · exact Or.inr (Or.inr (by rw [h2]; decide))
              · exact Or.inr (Or.inr (by rw [h2]; decide))
              · exact Or.inr (Or.inr (by rw [h2]; decide)))
          exact ⟨fun c hc => (hres.1 c hc).imp id (List.mem_cons_of_mem a),
            hres.2⟩
      · split at h
        · split at h
          · cases h
          · cases h
            refine ⟨?_, hacc⟩
            intro c hc
            exact Or.inr (List.mem_cons_of_mem a hc)
        · cases h
          exact ⟨fun c hc => Or.inl hc, fun c hc => absurd hc (List.not_mem_nil c)⟩

/-- Helper: ASCII lowercasing never produces `#` or `?` from a scheme
character. -/
theorem toLowerAscii_scheme_ne (s : Str)
    (hs : ∀ c ∈ s, isAlpha c = true ∨ isDigit c = true ∨ c ∈ ['+', '-', '.']) :
    ∀ c ∈ toLowerAscii s, c ≠ '#' ∧ c ≠ '?' := by
  intro c hc
  unfold toLowerAscii at hc
  rw [List.mem_map] at hc
  obtain ⟨c0, hc0, hce⟩ := hc
  by_cases hu : isUpperAlpha c0 = true
  · rw [if_pos hu] at hce
    have hb : c0.toNat ≤ 90 ∧ 65 ≤ c0.toNat := by
      unfold isUpperAlpha at hu
      rw [decide_eq_true_eq] at hu
      have h1 : ('A' : Char).toNat ≤ c0.toNat := hu.1
      have h2 : c0.toNat ≤ ('Z' : Char).toNat := hu.2
      exact ⟨h2, h1⟩
    have hv : c0.toNat + 32 < 55296 := by omega
    have htn : c.toNat = c0.toNat + 32 := by
      rw [← hce]
      exact charOfNat_toNat _ hv
    constructor
    · intro he
      rw [he] at htn
      have : ('#' : Char).toNat = 35 := by decide
      omega
    · intro he
      rw [he] at htn
      have : ('?' : Char).toNat = 63 := by decide
      omega
  · rw [if_neg hu] at hce
    rw [← hce]
    rcases hs c0 hc0 with h1 | h1 | h1
    · have hl : isLowerAlpha c0 = true := by
        unfold isAlpha at h1
        rw [Bool.or_eq_true] at h1
        rcases h1 with h2 | h2
        · exact absurd h2 hu
        · exact h2
      unfold isLowerAlpha at hl
      rw [decide_eq_true_eq] at hl
      have h1 : ('a' : Char).toNat ≤ c0.toNat := hl.1
      have h2 : c0.toNat ≤ ('z' : Char).toNat := hl.2
      constructor
      · intro he
        rw [he] at h1 h2
        revert h1
        decide
      · intro he
        rw [he] at h1 h2
        revert h1
        decide
    · unfold isDigit at h1
      rw [decide_eq_true_eq] at h1
      have h2 : ('0' : Char).toNat ≤ c0.toNat := h1.1
      have h3 : c0.toNat ≤ ('9' : Char).toNat := h1.2
      constructor
      · intro he
        rw [he] at h2 h3
        revert h2
        decide
      · intro he
        rw [he] at h2 h3
        revert h3
        decide
    · simp only [List.mem_cons, List.not_mem_nil, or_false] at h1
      rcases h1 with h2 | h2 | h2 <;> (rw [h2]; exact ⟨by decide, by decide⟩)

/-- Helper: `setPath` never touches the opaque part or the scheme. -/
theorem setPath_opq_scheme (u : URL) (p : Str) (v : URL)
    (h : setPath u p = .ok v) : v.opq = u.opq ∧ v.scheme = u.scheme := by
  unfold setPath at h
  split at h
  · cases h
  · cases h
    exact ⟨rfl, rfl⟩

/-- Helper: a parsed URL's opaque part draws its characters from the
input and holds no `?`, and its scheme holds neither `#` nor `?`. -/
theorem parseURL_facts (s : Str) (v : URL) (h : parseURL s = .ok v) :
    (∀ c ∈ v.opq, c ∈ s) ∧ ('?' ∉ v.opq) ∧
    (∀ c ∈ v.scheme, c ≠ '#' ∧ c ≠ '?') := by
  unfold parseURL at h
  split at h
  · cases h
  · split at h
    · cases h
      exact ⟨fun c hc => absurd hc (List.not_mem_nil c),
        fun hc => absurd hc (List.not_mem_nil '?'),
        fun c hc => absurd hc (List.not_mem_nil c)⟩
    · cases hgs : getScheme s with
      | error e =>
        rw [hgs] at h
        cases h
      | ok pr =>
        obtain ⟨scheme0, rest0⟩ := pr
        rw [hgs] at h
        dsimp only at h
        have hfacts := getSchemeAux_facts s s [] scheme0 rest0 hgs
          (fun c hc => absurd hc (List.not_mem_nil c))
        have hrest0 : ∀ c ∈ rest0, c ∈ s :=
          fun c hc => (hfacts.1 c hc).elim id id
        have hsch : ∀ c ∈ toLowerAscii scheme0, c ≠ '#' ∧ c ≠ '?' :=
          toLowerAscii_scheme_ne scheme0 hfacts.2
        by_cases hq : rest0.getLast? = some '?' ∧
            rest0.dropLast.contains '?' = false
        · rw [if_pos hq] at h
          dsimp only at h
          split at h
          · cases h
            refine ⟨?_, ?_, hsch⟩
            · intro c hc
              exact hrest0 c ((List.dropLast_sublist rest0).subset hc)
            · intro hc
              have hcon : rest0.dropLast.contains '?' = true :=
                List.elem_eq_true_of_mem hc
              rw [hq.2] at hcon
              cases hcon
          · split at h
            · cases h
            · split at h
              · split at h
                · cases h
                · next hpa =>
                  obtain ⟨ho, hs⟩ := setPath_opq_scheme _ _ _ h
                  refine ⟨?_, ?_, ?_⟩
                  · intro c hc
                    rw [ho] at hc
                    exact absurd hc (List.not_mem_nil c)
                  · intro hc
                    rw [ho] at hc
                    exact absurd hc (List.not_mem_nil '?')
                  · intro c hc
                    rw [hs] at hc
                    exact hsch c hc
              · split at h
                · obtain ⟨ho, hs⟩ := setPath_opq_scheme _ _ _ h
                  refine ⟨?_, ?_, ?_⟩
                  · intro c hc
                    rw [ho] at hc
                    exact absurd hc (List.not_mem_nil c)
                  · intro hc
                    rw [ho] at hc
                    exact absurd hc (List.not_mem_nil '?')
                  · intro c hc
                    rw [hs] at hc
                    exact hsch c hc
                · obtain ⟨ho, hs⟩ := setPath_opq_scheme _ _ _ h
                  refine ⟨?_, ?_, ?_⟩
                  · intro c hc
                    rw [ho] at hc
                    exact absurd hc (List.not_mem_nil c)
                  · intro hc
                    rw [ho] at hc
                    exact absurd hc (List.not_mem_nil '?')
                  · intro c hc
                    rw [hs] at hc
                    exact hsch c hc
        · rw [if_neg hq] at h
          dsimp only at h
          split at h
          · cases h
            refine ⟨?_, cutDrop_fst_not_mem '?' rest0, hsch⟩
            intro c hc
            exact hrest0 c ((cutDrop_subset '?' rest0).1 c hc)
          · split at h
            · cases h
            · split at h
              · split at h
                · cases h
                · next hpa =>
                  obtain ⟨ho, hs⟩ := setPath_opq_scheme _ _ _ h
                  refine ⟨?_, ?_, ?_⟩
                  · intro c hc
                    rw [ho] at hc
                    exact absurd hc (List.not_mem_nil c)
                  · intro hc
                    rw [ho] at hc
                    exact absurd hc (List.not_mem_nil '?')
                  · intro c hc
                    rw [hs] at hc
                    exact hsch c hc
              · split at h
                · obtain ⟨ho, hs⟩ := setPath_opq_scheme _ _ _ h
                  refine ⟨?_, ?_, ?_⟩
                  · intro c hc
                    rw [ho] at hc
                    exact absurd hc (List.not_mem_nil c)
                  · intro hc
                    rw [ho] at hc
                    exact absurd hc (List.not_mem_nil '?')
                  · intro c hc
                    rw [hs] at hc
                    exact hsch c hc
                · obtain ⟨ho, hs⟩ := setPath_opq_scheme _ _ _ h
                  refine ⟨?_, ?_, ?_⟩
                  · intro c hc
                    rw [ho] at hc
                    exact absurd hc (List.not_mem_nil c)
                  · intro hc
                    rw [ho] at hc
                    exact absurd hc (List.not_mem_nil '?')
                  · intro c hc
                    rw [hs] at hc
                    exact hsch c hc

/-- Helper: `url.Parse` output: no `#` or `?` in the opaque part, none in
the scheme. -/
theorem goURLParse_facts (t : Str) (v : URL) (h : goURLParse t = .ok v) :
    ('#' ∉ v.opq) ∧ ('?' ∉ v.opq) ∧ (∀ c ∈ v.scheme, c ≠ '#' ∧ c ≠ '?') := by
  unfold goURLParse at h
  dsimp only at h
  cases hb : parseURL (cutDrop '#' t).1 with
  | error e =>
    rw [hb] at h
    cases h
  | ok u0 =>
    rw [hb] at h
    dsimp only at h
    have hfacts := parseURL_facts _ u0 hb
    have hnum : ('#' : Char) ∉ u0.opq :=
      fun hc => cutDrop_fst_not_mem '#' t (hfacts.1 '#' hc)
    split at h
    · cases h
      exact ⟨hnum, hfacts.2.1, hfacts.2.2⟩
    · unfold setFragment at h
      split at h
      · cases h
      · cases h
        exact ⟨hnum, hfacts.2.1, hfacts.2.2⟩

theorem noMarker_nil : NoMarker [] :=
  ⟨List.not_mem_nil _, List.not_mem_nil _⟩

theorem noMarker_append {a b : Str} (ha : NoMarker a) (hb : NoMarker b) :
    NoMarker (a ++ b) := by
  constructor
  · intro hc
    rcases List.mem_append.mp hc with h | h
    · exact ha.1 h
    · exact hb.1 h
  · intro hc
    rcases List.mem_append.mp hc with h | h
    · exact ha.2 h
    · exact hb.2 h

theorem noMarker_ite (c : Prop) [Decidable c] {a b : Str}
    (ha : NoMarker a) (hb : NoMarker b) : NoMarker (if c then a else b) := by
  by_cases h : c
  · rw [if_pos h]
    exact ha
  · rw [if_neg h]
    exact hb

theorem noMarker_cons (x : Char) {l : Str} (hx1 : x ≠ '#') (hx2 : x ≠ '?')
    (h : NoMarker l) : NoMarker (x :: l) := by
  constructor
  · intro hc
    rcases List.mem_cons.mp hc with h1 | h1
    · exact hx1 h1.symm
    · exact h.1 h1
  · intro hc
    rcases List.mem_cons.mp hc with h1 | h1
    · exact hx2 h1.symm
    · exact h.2 h1

theorem noMarker_escape (mode : Encoding) (s : Str)
    (h1 : shouldEscape '#' mode = true) (h2 : shouldEscape '?' mode = true) :
    NoMarker (escape s mode) :=
  ⟨not_mem_escape '#' mode s h1 (by decide) (by decide) (by decide),
   not_mem_escape '?' mode s h2 (by decide) (by decide) (by decide)⟩

theorem noMarker_escapedPath (u : URL) : NoMarker (escapedPath u) :=
  ⟨not_mem_escapedPath '#' u (by decide) (by decide) (by decide) (by decide)
      (by decide) (by decide),
   not_mem_escapedPath '?' u (by decide) (by decide) (by decide) (by decide)
      (by decide) (by decide)⟩

theorem noMarker_userinfo (ui : Str × Option Str) :
    NoMarker (userinfoString ui) :=
  ⟨not_mem_userinfoString '#' ui (by decide) (by decide) (by decide)
      (by decide) (by decide),
   not_mem_userinfoString '?' ui (by decide) (by decide) (by decide)
      (by decide) (by decide)⟩

theorem noMarker_scheme (v : URL)
    (hsch : ∀ c ∈ v.scheme, c ≠ '#' ∧ c ≠ '?') : NoMarker v.scheme :=
  ⟨fun h => (hsch _ h).1 rfl, fun h => (hsch _ h).2 rfl⟩

/-- Helper: with the query and fragment blanked, `(*URL).String` returns
a marker-free core followed only by the forced-query `?`. -/
theorem urlString_core (v : URL) (hop : NoMarker v.opq)
    (hsch : ∀ c ∈ v.scheme, c ≠ '#' ∧ c ≠ '?') :
    ∃ core, urlString { v with rawQuery := [], frag := [] } =
      core ++ (if v.forceQuery = true then ['?'] else []) ∧ NoMarker core := by
  have hschN := noMarker_scheme v hsch
  unfold urlString
  dsimp only
  simp only [ne_eq, not_true_eq_false, if_false, List.append_nil,
    not_false_eq_true, if_true, or_false]
  by_cases hopq : v.opq = []
  · rw [if_neg (not_not_intro hopq)]
    cases v.user with
    | none =>
      dsimp only
      refine ⟨_, rfl, ?_⟩
      refine noMarker_append ?_ (noMarker_escapedPath _)
      repeat' first
        | exact noMarker_nil
        | exact hschN
        | apply noMarker_append
        | apply noMarker_ite
        | apply noMarker_cons _ (by decide) (by decide)
        | exact noMarker_escape .host _ (by decide) (by decide)
    | some ui =>
      dsimp only
      refine ⟨_, rfl, ?_⟩
      refine noMarker_append ?_ (noMarker_escapedPath _)
      repeat' first
        | exact noMarker_nil
        | exact hschN
        | apply noMarker_append
        | apply noMarker_ite
        | apply noMarker_cons _ (by decide) (by decide)
        | exact noMarker_escape .host _ (by decide) (by decide)
        | exact noMarker_userinfo _
  · rw [if_pos hopq]
    refine ⟨_, rfl, ?_⟩
    refine noMarker_append ?_ hop
    exact noMarker_ite _ (noMarker_append hschN
      (noMarker_cons ':' (by decide) (by decide) noMarker_nil)) noMarker_nil

/-- Helper: a parseable (trimmed) input normalizes to a string with no
`#` anywhere and `?` at most as the final forced-query marker. -/
theorem baseURL_markers (u : Str) (hp : parsesOk (goTrimSpace u) = true) :
    '#' ∉ baseURL u ∧ '?' ∉ (baseURL u).dropLast := by
  by_cases ht : goTrimSpace u = []
  · have hb : baseURL u = [] := by
      unfold baseURL
      dsimp only
      rw [if_pos ht]
    rw [hb]
    exact ⟨List.not_mem_nil _, by simp⟩
  · cases hE : goURLParse (goTrimSpace u) with
    | error e =>
      exfalso
      unfold parsesOk at hp
      rw [hE] at hp
      cases hp
    | ok v =>
      have hb : baseURL u = urlString { v with rawQuery := [], frag := [] } := by
        unfold baseURL
        dsimp only
        rw [if_neg ht, hE]
      obtain ⟨h1, h2, h3⟩ := goURLParse_facts _ v hE
      obtain ⟨core, hcore, hnm⟩ := urlString_core v ⟨h1, h2⟩ h3
      rw [hb, hcore]
      constructor
      · intro hc
        rcases List.mem_append.mp hc with hcc | hcc
        · exact hnm.1 hcc
        · revert hcc
          split
          · intro hcc
            exact absurd (List.mem_singleton.mp hcc) (by decide)
          · exact fun hcc => absurd hcc (List.not_mem_nil _)
      · revert hnm
        split
        · intro hnm
          rw [List.dropLast_concat]
          exact hnm.2
        · intro hnm
          rw [List.append_nil]
          intro hc
          exact hnm.2 ((List.dropLast_sublist core).subset hc)

/-- C7, amended: the normalizer sends empty or whitespace-only input to
the empty identity; a URL that fails to parse is returned TRIMMED (not
unchanged); and normalizing a parseable URL yields a string with no
fragment marker at all and no query marker except possibly a single
trailing `?` kept for a URL that ended in a lone `?` (Go's ForceQuery).
Idempotence fails in general (see the counterexample: stripping the query
of an opaque URL can expose a trailing space that only the next
application trims). -/
theorem c7_normalizer_amended :
    (∀ u : Str, goTrimSpace u = [] → baseURL u = []) ∧
    (∀ u : Str, goTrimSpace u ≠ [] → parsesOk (goTrimSpace u) = false →
       baseURL u = goTrimSpace u) ∧
    (∀ u : Str, parsesOk (goTrimSpace u) = true →
       '#' ∉ baseURL u ∧ '?' ∉ (baseURL u).dropLast) := by
  refine ⟨?_, ?_, baseURL_markers⟩
  · intro u ht
    unfold baseURL
    dsimp only
    rw [if_pos ht]
  · intro u ht hp
    cases hE : goURLParse (goTrimSpace u) with
    | ok v =>
      exfalso
      unfold parsesOk at hp
      rw [hE] at hp
      cases hp
    | error e =>
      unfold baseURL
      dsimp only
      rw [if_neg ht, hE]

/-- C7 witness: whitespace-only input, the non-parsing ` :foo`, and the
forced-query URL `http://x?` exercise the three amended clauses. -/
theorem c7_normalizer_amended_witness :
    (goTrimSpace "  ".toList = [] ∧ baseURL "  ".toList = []) ∧
    (goTrimSpace " :foo".toList ≠ [] ∧
     parsesOk (goTrimSpace " :foo".toList) = false ∧
     baseURL " :foo".toList = goTrimSpace " :foo".toList) ∧
    (parsesOk (goTrimSpace "http://x?".toList) = true ∧
     ('#' ∉ baseURL "http://x?".toList ∧
      '?' ∉ (baseURL "http://x?".toList).dropLast)) :=
  ⟨⟨by decide, c7_normalizer_amended.1 _ (by decide)⟩,
   ⟨by decide, by decide,
    c7_normalizer_amended.2.1 _ (by decide) (by decide)⟩,
   ⟨by decide, c7_normalizer_amended.2.2 _ (by decide)⟩⟩

end Greeder
